import Mathlib

/-!
# KVStorage: an in-memory key-value store with TTL

Shallow embedding of `src/lib/kvstorage.h`.

* Keys and values are `String`s; `std::string` ordering is the lexicographic
  order of the character lists (`KVStorage.less`).
* `uint64_t` timestamps and generations are `Nat`s, every addition that the
  source performs on them is taken modulo `2 ^ 64`.
* The clock is external: each operation that calls `now_sec()` receives the
  clock reading `now` as an argument.
* `std::unordered_map` is an association list that is only accessed through
  `find`, `emplace` (of an absent key), assignment through the found iterator
  and `erase` of the found iterator.
* `std::map<std::string, char>` is the ascending list of its keys (the mapped
  `char` is the constant `0` and is never read).
* `std::priority_queue` is the list of its items; `top` is an item that
  `HeapComp` puts below no other item (the leftmost one among equals, the
  order among ties being left open by the standard library). The proofs use
  only that `top` is an item of least `expired_at` and that `pop` removes it.
* The `while` loop of `removeOneExpiredEntry` recurses on a fuel argument that
  is set to the queue length; `removeOneExpiredEntry_loop_fuel` shows that any
  larger fuel gives the same outcome.
* Memory: `getManySorted` reserves storage for `count` pairs before it looks
  at the store, so whether it returns depends on the argument alone. This one
  allocation is modelled (`KVStorage.reserve`, `KVStorage.getManySorted_call`)
  with the number of pairs that the allocator can grant as a parameter. The
  other allocations grow with the data that the store already holds and are
  taken to succeed.
-/

/-- The sentinel `k_infinite = std::numeric_limits<uint64_t>::max()`. -/
def KVStorage.k_infinite : Nat := 2 ^ 64 - 1

/-- The record `Entry` of the primary map. -/
structure KVStorage.Entry where
  value_ : String
  expired_at : Nat
  generation : Nat
  deriving DecidableEq, Repr

/-- The queue entry `HeapItem`. -/
structure KVStorage.HeapItem where
  expired_at : Nat
  generation : Nat
  key : String
  deriving DecidableEq, Repr

/-- The store: `map_`, `sorted_` and `min_heap_` (the clock is passed to the operations). -/
structure KVStorage where
  map_ : List (String × KVStorage.Entry)
  sorted_ : List String
  min_heap_ : List KVStorage.HeapItem
  deriving DecidableEq, Repr

/-- The comparator `HeapComp`: `x.expired_at > y.expired_at`. -/
def KVStorage.HeapComp (x y : KVStorage.HeapItem) : Bool :=
  decide (x.expired_at > y.expired_at)

/-- The key order `std::less<std::string>`: lexicographic on the characters. -/
def KVStorage.less (a b : String) : Bool :=
  decide (a.data < b.data)

/-- The lookup `map_.find(key)`: the record stored under `key`, if any. -/
def KVStorage.map_find : List (String × KVStorage.Entry) → String → Option KVStorage.Entry
  | [], _ => none
  | (k, e) :: m, key => if k = key then some e else KVStorage.map_find m key

/-- Assignment through the iterator returned by `map_.find(key)`. -/
def KVStorage.map_assign :
    List (String × KVStorage.Entry) → String → KVStorage.Entry → List (String × KVStorage.Entry)
  | [], _, _ => []
  | (k, e) :: m, key, e1 =>
    if k = key then (k, e1) :: m else (k, e) :: KVStorage.map_assign m key e1

/-- The removal `map_.erase(it)` for `it = map_.find(key)`. -/
def KVStorage.map_erase : List (String × KVStorage.Entry) → String → List (String × KVStorage.Entry)
  | [], _ => []
  | (k, e) :: m, key => if k = key then m else (k, e) :: KVStorage.map_erase m key

/-- The insertion `sorted_.emplace(key, 0)`: at its place in the order, unless present. -/
def KVStorage.sorted_emplace : List String → String → List String
  | [], key => [key]
  | x :: xs, key =>
    if KVStorage.less key x then key :: x :: xs
    else if KVStorage.less x key then x :: KVStorage.sorted_emplace xs key
    else x :: xs

/-- The removal `sorted_.erase(key)`: every element equivalent to `key`. -/
def KVStorage.sorted_erase (l : List String) (key : String) : List String :=
  l.filter (fun x => decide (x ≠ key))

/-- The position `sorted_.upper_bound(key)`: the elements from the first one above `key` on. -/
def KVStorage.sorted_upper_bound (l : List String) (key : String) : List String :=
  l.dropWhile (fun x => !KVStorage.less key x)

/-- The item `min_heap_.top()`. -/
def KVStorage.heap_top : List KVStorage.HeapItem → Option KVStorage.HeapItem
  | [] => none
  | x :: xs =>
    match KVStorage.heap_top xs with
    | none => some x
    | some y => if KVStorage.HeapComp x y then some y else some x

/-- The removal `min_heap_.pop()`: the queue without its top item. -/
def KVStorage.heap_pop (h : List KVStorage.HeapItem) : List KVStorage.HeapItem :=
  match KVStorage.heap_top h with
  | none => h
  | some t => h.erase t

/-- The check `is_expired(e, now)`. -/
def KVStorage.is_expired (e : KVStorage.Entry) (now : Nat) : Bool :=
  decide (e.expired_at ≠ KVStorage.k_infinite) && decide (e.expired_at ≤ now)

/-- The helper `push_to_heap(key, e)`. -/
def KVStorage.push_to_heap (s : KVStorage) (key : String) (e : KVStorage.Entry) : KVStorage :=
  { s with min_heap_ := KVStorage.HeapItem.mk e.expired_at e.generation key :: s.min_heap_ }

/-- The operation `set(key, value, ttl)` at clock reading `now`. -/
def KVStorage.set (s : KVStorage) (now : Nat) (key value : String) (ttl : Nat) : KVStorage :=
  let expired := if ttl = 0 then KVStorage.k_infinite else (now + ttl) % 2 ^ 64
  match KVStorage.map_find s.map_ key with
  | none =>
    let e : KVStorage.Entry := KVStorage.Entry.mk value expired 1
    let s1 : KVStorage :=
      { s with map_ := (key, e) :: s.map_, sorted_ := KVStorage.sorted_emplace s.sorted_ key }
    if ttl ≠ 0 then KVStorage.push_to_heap s1 key e else s1
  | some old =>
    let e : KVStorage.Entry := KVStorage.Entry.mk value expired ((old.generation + 1) % 2 ^ 64)
    let s1 : KVStorage := { s with map_ := KVStorage.map_assign s.map_ key e }
    if ttl ≠ 0 then KVStorage.push_to_heap s1 key e else s1

/-- The operation `remove(key)`: the new store and the returned flag. -/
def KVStorage.remove (s : KVStorage) (key : String) : KVStorage × Bool :=
  match KVStorage.map_find s.map_ key with
  | none => (s, false)
  | some _ =>
    ({ s with sorted_ := KVStorage.sorted_erase s.sorted_ key,
              map_ := KVStorage.map_erase s.map_ key }, true)

/-- The operation `get(key)` at clock reading `now`. -/
def KVStorage.get (s : KVStorage) (now : Nat) (key : String) : Option String :=
  match KVStorage.map_find s.map_ key with
  | none => none
  | some e => if KVStorage.is_expired e now then none else some e.value_

/-- The loop of `getManySorted` from iterator position `it` with the result `res` so far. -/
def KVStorage.getManySorted_loop (s : KVStorage) (now count : Nat) :
    List String → List (String × String) → List (String × String)
  | [], res => res
  | k :: it, res =>
    if res.length < count then
      match KVStorage.map_find s.map_ k with
      | none => KVStorage.getManySorted_loop s now count it res
      | some e =>
        if KVStorage.is_expired e now then KVStorage.getManySorted_loop s now count it res
        else KVStorage.getManySorted_loop s now count it (res ++ [(k, e.value_)])
    else res

/-- The sequence that `getManySorted(key, count)` returns at clock reading `now`: the loop
from `sorted_.upper_bound(key)` on the empty `res`. The reservation `res.reserve(count)`
that comes before the loop, and its failure, are in `KVStorage.getManySorted_call`. -/
def KVStorage.getManySorted (s : KVStorage) (now : Nat) (key : String) (count : Nat) :
    List (String × String) :=
  KVStorage.getManySorted_loop s now count (KVStorage.sorted_upper_bound s.sorted_ key) []

/-- The `while` loop of `removeOneExpiredEntry`; `fuel` bounds the number of iterations
(each iteration that continues pops one item, so the queue length is enough). -/
def KVStorage.removeOneExpiredEntry_loop (now : Nat) :
    Nat → KVStorage → KVStorage × Option (String × String)
  | 0, s => (s, none)
  | fuel + 1, s =>
    match KVStorage.heap_top s.min_heap_ with
    | none => (s, none)
    | some top =>
      if top.expired_at > now then (s, none)
      else
        let s1 : KVStorage := { s with min_heap_ := KVStorage.heap_pop s.min_heap_ }
        match KVStorage.map_find s1.map_ top.key with
        | none => KVStorage.removeOneExpiredEntry_loop now fuel s1
        | some e =>
          if e.generation ≠ top.generation then KVStorage.removeOneExpiredEntry_loop now fuel s1
          else if e.expired_at ≠ top.expired_at then
            KVStorage.removeOneExpiredEntry_loop now fuel s1
          else
            ({ s1 with sorted_ := KVStorage.sorted_erase s1.sorted_ top.key,
                       map_ := KVStorage.map_erase s1.map_ top.key },
             some (top.key, e.value_))

/-- The operation `removeOneExpiredEntry()` at clock reading `now`. -/
def KVStorage.removeOneExpiredEntry (s : KVStorage) (now : Nat) :
    KVStorage × Option (String × String) :=
  KVStorage.removeOneExpiredEntry_loop now s.min_heap_.length s

/-- The store with three empty containers. -/
def KVStorage.empty : KVStorage := KVStorage.mk [] [] []

/-- The constructor: `set` on every triple of `entries`, in order, at clock reading `now`. -/
def KVStorage.ctor (entries : List (String × String × Nat)) (now : Nat) : KVStorage :=
  entries.foldl (fun s e => KVStorage.set s now e.1 e.2.1 e.2.2) KVStorage.empty

/-- The public operations, as calls without the clock reading. -/
inductive KVStorage.Op where
  | set (key value : String) (ttl : Nat)
  | remove (key : String)
  | get (key : String)
  | getManySorted (key : String) (count : Nat)
  | removeOneExpiredEntry
  deriving DecidableEq, Repr

/-- The store after one call made at clock reading `now` (the two reads are `const`). -/
def KVStorage.step (s : KVStorage) (now : Nat) : KVStorage.Op → KVStorage
  | KVStorage.Op.set key value ttl => KVStorage.set s now key value ttl
  | KVStorage.Op.remove key => (KVStorage.remove s key).1
  | KVStorage.Op.get _ => s
  | KVStorage.Op.getManySorted _ _ => s
  | KVStorage.Op.removeOneExpiredEntry => (KVStorage.removeOneExpiredEntry s now).1

/-- The store after a sequence of calls, each with its clock reading. -/
def KVStorage.run (s : KVStorage) : List (Nat × KVStorage.Op) → KVStorage
  | [] => s
  | (now, op) :: ops => KVStorage.run (KVStorage.step s now op) ops

/-- Whether the call is a `set` or a `remove` of the key `k`. -/
def KVStorage.Op.writes (k : String) : KVStorage.Op → Bool
  | KVStorage.Op.set key _ _ => decide (key = k)
  | KVStorage.Op.remove key => decide (key = k)
  | _ => false

/-- Whether the call is `removeOneExpiredEntry`. -/
def KVStorage.Op.evicts : KVStorage.Op → Bool
  | KVStorage.Op.removeOneExpiredEntry => true
  | _ => false

/-- The states reachable from construction by calls of the public operations. Clock readings
and ttl values are left unconstrained, so that every state the program can reach is reachable
here (the clock of the program yields readings below `2 ^ 64` that never decrease). -/
inductive KVStorage.Reachable : KVStorage → Prop
  | ctor (entries : List (String × String × Nat)) (now : Nat) :
      KVStorage.Reachable (KVStorage.ctor entries now)
  | step {s : KVStorage} (now : Nat) (op : KVStorage.Op) :
      KVStorage.Reachable s → KVStorage.Reachable (KVStorage.step s now op)

/-- The keys of the primary map. -/
def KVStorage.keys (s : KVStorage) : List String :=
  s.map_.map Prod.fst

/-- The representation invariant of the three containers: unique keys in `map_`, `sorted_`
strictly ascending with the keys of `map_`, and a queue entry for every record whose
expiration is not the sentinel. -/
structure KVStorage.WF (s : KVStorage) : Prop where
  nodup : (KVStorage.keys s).Nodup
  sorted : s.sorted_.Pairwise (fun a b => a < b)
  same_keys : ∀ k, k ∈ s.sorted_ ↔ k ∈ KVStorage.keys s
  covered : ∀ k e, KVStorage.map_find s.map_ k = some e → e.expired_at ≠ KVStorage.k_infinite →
    KVStorage.HeapItem.mk e.expired_at e.generation k ∈ s.min_heap_

/-- Successive `removeOneExpiredEntry()` calls, one per clock reading of the list: the final
store and the results in call order. -/
def KVStorage.drain : List Nat → KVStorage → KVStorage × List (Option (String × String))
  | [], s => (s, [])
  | now :: nows, s =>
    let r := KVStorage.removeOneExpiredEntry s now
    let r2 := KVStorage.drain nows r.1
    (r2.1, r.2 :: r2.2)

/-- The records of the primary map that are expired at `now`. -/
def KVStorage.expiredRecords (s : KVStorage) (now : Nat) : List (String × KVStorage.Entry) :=
  s.map_.filter (fun p => KVStorage.is_expired p.2 now)

/-- The store that the construction contract describes: starting from the empty store, `set`
is called on every triple, in sequence order, each time at the clock reading `now` (the
reference for the constructor, written from its description and not from its loop). -/
def KVStorage.setAll (entries : List (String × String × Nat)) (now : Nat) : KVStorage :=
  KVStorage.run KVStorage.empty
    (entries.map (fun e => (now, KVStorage.Op.set e.1 e.2.1 e.2.2)))

/-- The generation of the record of `k`, and `0` when the primary map has no record of `k`. -/
def KVStorage.generation_of (s : KVStorage) (k : String) : Nat :=
  match KVStorage.map_find s.map_ k with
  | none => 0
  | some e => e.generation

/-- Whether the queue item fails the validation of `removeOneExpiredEntry` against the primary
map: key missing, generation mismatch or expiration mismatch. -/
def KVStorage.is_stale (s : KVStorage) (t : KVStorage.HeapItem) : Bool :=
  match KVStorage.map_find s.map_ t.key with
  | none => true
  | some e => decide (e.generation ≠ t.generation) || decide (e.expired_at ≠ t.expired_at)

/-- Whether the call is a `set` of the key `k`. -/
def KVStorage.Op.sets (k : String) : KVStorage.Op → Bool
  | KVStorage.Op.set key _ _ => decide (key = k)
  | _ => false

/-- The generations that the `set` calls of the key `k` assign along a sequence of calls, in
call order. -/
def KVStorage.assigned (k : String) : KVStorage → List (Nat × KVStorage.Op) → List Nat
  | _, [] => []
  | s, (now, op) :: ops =>
    if KVStorage.Op.sets k op then
      KVStorage.generation_of (KVStorage.step s now op) k ::
        KVStorage.assigned k (KVStorage.step s now op) ops
    else KVStorage.assigned k (KVStorage.step s now op) ops

/-- Whether no call of the sequence takes the key `k` out of the primary map (neither a
`remove(k)` of the stored key nor an eviction of `k`). -/
def KVStorage.survives (k : String) : KVStorage → List (Nat × KVStorage.Op) → Bool
  | _, [] => true
  | s, (now, op) :: ops =>
    (!decide (k ∈ KVStorage.keys s) || decide (k ∈ KVStorage.keys (KVStorage.step s now op))) &&
      KVStorage.survives k (KVStorage.step s now op) ops

/-! ## The containers -/

theorem KVStorage.less_iff (a b : String) : KVStorage.less a b = true ↔ a < b := by
  simp [KVStorage.less]

theorem KVStorage.map_find_isSome_iff (m : List (String × KVStorage.Entry)) (key : String) :
    (KVStorage.map_find m key).isSome = true ↔ key ∈ m.map Prod.fst := by
  induction m with
  | nil => simp [KVStorage.map_find]
  | cons p m ih =>
    obtain ⟨k, e⟩ := p
    by_cases h : k = key
    · simp [KVStorage.map_find, h]
    · have h1 : ¬ key = k := fun h2 => h h2.symm
      simp only [KVStorage.map_find, if_neg h, ih, List.map_cons, List.mem_cons, h1, false_or]

theorem KVStorage.map_find_eq_none_iff (m : List (String × KVStorage.Entry)) (key : String) :
    KVStorage.map_find m key = none ↔ key ∉ m.map Prod.fst := by
  rw [← KVStorage.map_find_isSome_iff]
  cases KVStorage.map_find m key <;> simp

theorem KVStorage.map_find_mem {m : List (String × KVStorage.Entry)} {key : String}
    {e : KVStorage.Entry} (h : KVStorage.map_find m key = some e) : (key, e) ∈ m := by
  induction m with
  | nil => simp [KVStorage.map_find] at h
  | cons p m ih =>
    obtain ⟨k, e1⟩ := p
    by_cases hk : k = key
    · simp only [KVStorage.map_find, if_pos hk, Option.some.injEq] at h
      simp [hk, h]
    · simp only [KVStorage.map_find, if_neg hk] at h
      exact List.mem_cons_of_mem _ (ih h)

theorem KVStorage.map_find_of_mem {m : List (String × KVStorage.Entry)} {key : String}
    {e : KVStorage.Entry} (hnd : (m.map Prod.fst).Nodup) (h : (key, e) ∈ m) :
    KVStorage.map_find m key = some e := by
  induction m with
  | nil => simp at h
  | cons p m ih =>
    obtain ⟨k, e1⟩ := p
    simp only [List.map_cons, List.nodup_cons, List.mem_map, not_exists, not_and] at hnd
    simp only [List.mem_cons, Prod.mk.injEq] at h
    rcases h with ⟨h1, h2⟩ | h
    · simp [KVStorage.map_find, h1, h2]
    · have hk : k ≠ key := fun hk => hnd.1 (key, e) h hk.symm
      simp only [KVStorage.map_find, if_neg hk]
      exact ih hnd.2 h

theorem KVStorage.map_find_assign_self {m : List (String × KVStorage.Entry)} {key : String}
    {old : KVStorage.Entry} (e : KVStorage.Entry) (h : KVStorage.map_find m key = some old) :
    KVStorage.map_find (KVStorage.map_assign m key e) key = some e := by
  induction m with
  | nil => simp [KVStorage.map_find] at h
  | cons p m ih =>
    obtain ⟨k, e1⟩ := p
    by_cases hk : k = key
    · simp [KVStorage.map_assign, KVStorage.map_find, hk]
    · simp only [KVStorage.map_find, if_neg hk] at h
      simp [KVStorage.map_assign, KVStorage.map_find, hk, ih h]

theorem KVStorage.map_find_assign_ne (m : List (String × KVStorage.Entry)) {key k1 : String}
    (e : KVStorage.Entry) (h : k1 ≠ key) :
    KVStorage.map_find (KVStorage.map_assign m key e) k1 = KVStorage.map_find m k1 := by
  induction m with
  | nil => simp [KVStorage.map_assign]
  | cons p m ih =>
    obtain ⟨k, e1⟩ := p
    by_cases hk : k = key
    · have : ¬ k = k1 := fun h2 => h (h2.symm.trans hk)
      simp [KVStorage.map_assign, KVStorage.map_find, hk, this, h.symm]
    · by_cases hk1 : k = k1
      · subst hk1
        simp [KVStorage.map_assign, KVStorage.map_find, hk]
      · simp [KVStorage.map_assign, KVStorage.map_find, hk, hk1, ih]

theorem KVStorage.map_assign_keys (m : List (String × KVStorage.Entry)) (key : String)
    (e : KVStorage.Entry) :
    (KVStorage.map_assign m key e).map Prod.fst = m.map Prod.fst := by
  induction m with
  | nil => simp [KVStorage.map_assign]
  | cons p m ih =>
    obtain ⟨k, e1⟩ := p
    by_cases hk : k = key
    · simp [KVStorage.map_assign, hk]
    · simp [KVStorage.map_assign, hk, ih]

theorem KVStorage.map_find_erase_ne (m : List (String × KVStorage.Entry)) {key k1 : String}
    (h : k1 ≠ key) :
    KVStorage.map_find (KVStorage.map_erase m key) k1 = KVStorage.map_find m k1 := by
  induction m with
  | nil => simp [KVStorage.map_erase]
  | cons p m ih =>
    obtain ⟨k, e1⟩ := p
    by_cases hk : k = key
    · have : ¬ k = k1 := fun h2 => h (h2.symm.trans hk)
      simp [KVStorage.map_erase, KVStorage.map_find, hk, h.symm]
    · by_cases hk1 : k = k1
      · subst hk1
        simp [KVStorage.map_erase, KVStorage.map_find, hk]
      · simp [KVStorage.map_erase, KVStorage.map_find, hk, hk1, ih]

theorem KVStorage.map_erase_keys (m : List (String × KVStorage.Entry)) (key : String) :
    (KVStorage.map_erase m key).map Prod.fst = (m.map Prod.fst).erase key := by
  induction m with
  | nil => simp [KVStorage.map_erase]
  | cons p m ih =>
    obtain ⟨k, e1⟩ := p
    by_cases hk : k = key
    · simp [KVStorage.map_erase, hk]
    · simp [KVStorage.map_erase, hk, ih, List.erase_cons_tail]

theorem KVStorage.map_erase_nodup {m : List (String × KVStorage.Entry)} (key : String)
    (h : (m.map Prod.fst).Nodup) : ((KVStorage.map_erase m key).map Prod.fst).Nodup := by
  rw [KVStorage.map_erase_keys]
  exact h.erase key

theorem KVStorage.map_find_erase_self {m : List (String × KVStorage.Entry)} (key : String)
    (h : (m.map Prod.fst).Nodup) : KVStorage.map_find (KVStorage.map_erase m key) key = none := by
  rw [KVStorage.map_find_eq_none_iff, KVStorage.map_erase_keys]
  exact fun h1 => (h.mem_erase_iff.1 h1).1 rfl

/-! ## `set`, `remove` and `get` on the primary map -/

theorem KVStorage.push_to_heap_map (s : KVStorage) (key : String) (e : KVStorage.Entry) :
    (KVStorage.push_to_heap s key e).map_ = s.map_ := rfl

theorem KVStorage.push_to_heap_sorted (s : KVStorage) (key : String) (e : KVStorage.Entry) :
    (KVStorage.push_to_heap s key e).sorted_ = s.sorted_ := rfl

theorem KVStorage.set_map_find_self (s : KVStorage) (now : Nat) (key value : String) (ttl : Nat) :
    ∃ g, KVStorage.map_find (KVStorage.set s now key value ttl).map_ key =
      some (KVStorage.Entry.mk value
        (if ttl = 0 then KVStorage.k_infinite else (now + ttl) % 2 ^ 64) g) := by
  unfold KVStorage.set
  cases h : KVStorage.map_find s.map_ key with
  | none =>
    refine ⟨1, ?_⟩
    by_cases ht : ttl = 0 <;> simp [ht, KVStorage.push_to_heap, KVStorage.map_find]
  | some old =>
    refine ⟨(old.generation + 1) % 2 ^ 64, ?_⟩
    by_cases ht : ttl = 0 <;>
      simp [ht, KVStorage.push_to_heap, KVStorage.map_find_assign_self _ h]

theorem KVStorage.set_map_find_ne (s : KVStorage) (now : Nat) (key value : String) (ttl : Nat)
    {k1 : String} (hk : k1 ≠ key) :
    KVStorage.map_find (KVStorage.set s now key value ttl).map_ k1 =
      KVStorage.map_find s.map_ k1 := by
  unfold KVStorage.set
  cases h : KVStorage.map_find s.map_ key with
  | none =>
    by_cases ht : ttl = 0 <;>
      simp [ht, KVStorage.push_to_heap, KVStorage.map_find, Ne.symm hk]
  | some old =>
    by_cases ht : ttl = 0 <;>
      simp [ht, KVStorage.push_to_heap, KVStorage.map_find_assign_ne _ _ hk]

theorem KVStorage.remove_map_find_ne (s : KVStorage) (key : String) {k1 : String}
    (hk : k1 ≠ key) :
    KVStorage.map_find (KVStorage.remove s key).1.map_ k1 = KVStorage.map_find s.map_ k1 := by
  unfold KVStorage.remove
  cases h : KVStorage.map_find s.map_ key with
  | none => rfl
  | some old => simp [KVStorage.map_find_erase_ne _ hk]

theorem KVStorage.get_eq_some_iff (s : KVStorage) (now : Nat) (key v : String) :
    KVStorage.get s now key = some v ↔
      ∃ e, KVStorage.map_find s.map_ key = some e ∧ KVStorage.is_expired e now = false ∧
        e.value_ = v := by
  unfold KVStorage.get
  cases h : KVStorage.map_find s.map_ key with
  | none => simp
  | some e => by_cases hx : KVStorage.is_expired e now = true <;> simp [hx]

theorem KVStorage.get_congr {s1 s2 : KVStorage} (now : Nat) (key : String)
    (h : KVStorage.map_find s1.map_ key = KVStorage.map_find s2.map_ key) :
    KVStorage.get s1 now key = KVStorage.get s2 now key := by
  unfold KVStorage.get
  rw [h]

theorem KVStorage.is_expired_iff (e : KVStorage.Entry) (now : Nat) :
    KVStorage.is_expired e now = true ↔
      e.expired_at ≠ KVStorage.k_infinite ∧ e.expired_at ≤ now := by
  simp [KVStorage.is_expired]

theorem KVStorage.is_expired_of_le {e : KVStorage.Entry} {now : Nat}
    (hnow : now < KVStorage.k_infinite) (h : e.expired_at ≤ now) :
    KVStorage.is_expired e now = true := by
  rw [KVStorage.is_expired_iff]
  exact ⟨by omega, h⟩

/-! ## The order index -/

theorem KVStorage.mem_sorted_emplace (l : List String) (key x : String) :
    x ∈ KVStorage.sorted_emplace l key ↔ x = key ∨ x ∈ l := by
  induction l with
  | nil => simp [KVStorage.sorted_emplace]
  | cons y ys ih =>
    unfold KVStorage.sorted_emplace
    by_cases h1 : KVStorage.less key y = true
    · simp [h1]
    · by_cases h2 : KVStorage.less y key = true
      · rw [if_neg h1, if_pos h2, List.mem_cons, ih, List.mem_cons]
        tauto
      · have h3 : ¬ key < y := fun h => h1 ((KVStorage.less_iff _ _).2 h)
        have h4 : ¬ y < key := fun h => h2 ((KVStorage.less_iff _ _).2 h)
        have h5 : key = y := le_antisymm (not_lt.1 h4) (not_lt.1 h3)
        rw [if_neg h1, if_neg h2, List.mem_cons, h5]
        tauto

theorem KVStorage.sorted_emplace_pairwise {l : List String} (key : String)
    (h : l.Pairwise (fun a b => a < b)) :
    (KVStorage.sorted_emplace l key).Pairwise (fun a b => a < b) := by
  induction l with
  | nil => simp [KVStorage.sorted_emplace]
  | cons y ys ih =>
    rw [List.pairwise_cons] at h
    unfold KVStorage.sorted_emplace
    by_cases h1 : KVStorage.less key y = true
    · have hky : key < y := (KVStorage.less_iff _ _).1 h1
      rw [if_pos h1, List.pairwise_cons, List.pairwise_cons]
      refine ⟨?_, h.1, h.2⟩
      simp only [List.mem_cons]
      rintro a (rfl | ha)
      · exact hky
      · exact lt_trans hky (h.1 a ha)
    · by_cases h2 : KVStorage.less y key = true
      · have hyk : y < key := (KVStorage.less_iff _ _).1 h2
        rw [if_neg h1, if_pos h2, List.pairwise_cons]
        refine ⟨?_, ih h.2⟩
        intro a ha
        rcases (KVStorage.mem_sorted_emplace ys key a).1 ha with rfl | ha
        · exact hyk
        · exact h.1 a ha
      · rw [if_neg h1, if_neg h2, List.pairwise_cons]
        exact h

theorem KVStorage.mem_sorted_erase (l : List String) (key x : String) :
    x ∈ KVStorage.sorted_erase l key ↔ x ∈ l ∧ x ≠ key := by
  simp [KVStorage.sorted_erase]

theorem KVStorage.sorted_erase_pairwise {l : List String} (key : String)
    (h : l.Pairwise (fun a b => a < b)) :
    (KVStorage.sorted_erase l key).Pairwise (fun a b => a < b) :=
  h.filter _

theorem KVStorage.sorted_erase_of_not_mem {l : List String} {key : String} (h : key ∉ l) :
    KVStorage.sorted_erase l key = l := by
  unfold KVStorage.sorted_erase
  rw [List.filter_eq_self]
  intro a ha
  have : a ≠ key := fun h1 => h (h1 ▸ ha)
  simpa using this

theorem KVStorage.sorted_upper_bound_eq_filter {l : List String} (key : String)
    (h : l.Pairwise (fun a b => a < b)) :
    KVStorage.sorted_upper_bound l key = l.filter (fun x => KVStorage.less key x) := by
  induction l with
  | nil => rfl
  | cons y ys ih =>
    rw [List.pairwise_cons] at h
    unfold KVStorage.sorted_upper_bound
    by_cases h1 : KVStorage.less key y = true
    · have hky : key < y := (KVStorage.less_iff _ _).1 h1
      rw [List.dropWhile_cons_of_neg (by simp [h1]), List.filter_cons_of_pos h1]
      congr 1
      symm
      rw [List.filter_eq_self]
      intro a ha
      exact (KVStorage.less_iff _ _).2 (lt_trans hky (h.1 a ha))
    · rw [List.dropWhile_cons_of_pos (by simp [h1]), List.filter_cons_of_neg h1]
      exact ih h.2

/-! ## The expiration queue -/

theorem KVStorage.heap_top_eq_none_iff (h : List KVStorage.HeapItem) :
    KVStorage.heap_top h = none ↔ h = [] := by
  cases h with
  | nil => simp [KVStorage.heap_top]
  | cons x xs =>
    simp only [KVStorage.heap_top]
    cases KVStorage.heap_top xs with
    | none => simp
    | some y => by_cases hc : KVStorage.HeapComp x y = true <;> simp [hc]

theorem KVStorage.heap_top_mem {h : List KVStorage.HeapItem} {t : KVStorage.HeapItem}
    (ht : KVStorage.heap_top h = some t) : t ∈ h := by
  induction h generalizing t with
  | nil => simp [KVStorage.heap_top] at ht
  | cons x xs ih =>
    simp only [KVStorage.heap_top] at ht
    cases hxs : KVStorage.heap_top xs with
    | none =>
      rw [hxs] at ht
      simp only [Option.some.injEq] at ht
      simp [ht]
    | some y =>
      rw [hxs] at ht
      by_cases hc : KVStorage.HeapComp x y = true
      · simp only [hc, if_true, Option.some.injEq] at ht
        exact List.mem_cons_of_mem _ (ih (ht ▸ hxs))
      · simp only [hc, Option.some.injEq] at ht
        simp at ht
        simp [ht]

theorem KVStorage.heap_top_le {h : List KVStorage.HeapItem} {t : KVStorage.HeapItem}
    (ht : KVStorage.heap_top h = some t) : ∀ x ∈ h, t.expired_at ≤ x.expired_at := by
  induction h generalizing t with
  | nil => simp
  | cons x xs ih =>
    simp only [KVStorage.heap_top] at ht
    cases hxs : KVStorage.heap_top xs with
    | none =>
      rw [hxs] at ht
      simp only [Option.some.injEq] at ht
      have hnil : xs = [] := (KVStorage.heap_top_eq_none_iff xs).1 hxs
      subst hnil
      subst ht
      simp
    | some y =>
      rw [hxs] at ht
      have hy := ih hxs
      by_cases hc : KVStorage.HeapComp x y = true
      · simp only [hc, if_true, Option.some.injEq] at ht
        subst ht
        have hlt : y.expired_at < x.expired_at := by simpa [KVStorage.HeapComp] using hc
        intro z hz
        rcases List.mem_cons.1 hz with rfl | hz
        · exact Nat.le_of_lt hlt
        · exact hy z hz
      · have hle : x.expired_at ≤ y.expired_at := by simpa [KVStorage.HeapComp] using hc
        simp only [hc, Option.some.injEq] at ht
        simp only [Bool.false_eq_true, if_false, Option.some.injEq] at ht
        subst ht
        intro z hz
        rcases List.mem_cons.1 hz with rfl | hz
        · exact Nat.le_refl _
        · exact Nat.le_trans hle (hy z hz)

theorem KVStorage.heap_pop_eq {h : List KVStorage.HeapItem} {t : KVStorage.HeapItem}
    (ht : KVStorage.heap_top h = some t) : KVStorage.heap_pop h = h.erase t := by
  simp [KVStorage.heap_pop, ht]

theorem KVStorage.heap_pop_length {h : List KVStorage.HeapItem} {t : KVStorage.HeapItem}
    (ht : KVStorage.heap_top h = some t) : (KVStorage.heap_pop h).length + 1 = h.length := by
  have hm := KVStorage.heap_top_mem ht
  rw [KVStorage.heap_pop_eq ht, List.length_erase_of_mem hm]
  have : 0 < h.length := List.length_pos_of_mem hm
  omega

/-- Case analysis along the `while` loop of `removeOneExpiredEntry`: a property of the start
state and the outcome holds once it holds at the two exits without result (empty queue, top
item still in the future), at the exit with a reclaimed entry, and is carried backwards over
the pop of a stale item. -/
theorem KVStorage.removeOneExpiredEntry_loop_cases (now : Nat)
    (P : KVStorage → KVStorage × Option (String × String) → Prop)
    (h_empty : ∀ s : KVStorage, KVStorage.heap_top s.min_heap_ = none → P s (s, none))
    (h_future : ∀ (s : KVStorage) (top : KVStorage.HeapItem),
      KVStorage.heap_top s.min_heap_ = some top → top.expired_at > now → P s (s, none))
    (h_stale : ∀ (s : KVStorage) (top : KVStorage.HeapItem) (r : KVStorage × Option (String × String)),
      KVStorage.heap_top s.min_heap_ = some top → top.expired_at ≤ now →
      (∀ e, KVStorage.map_find s.map_ top.key = some e →
        e.generation ≠ top.generation ∨ e.expired_at ≠ top.expired_at) →
      P (KVStorage.mk s.map_ s.sorted_ (KVStorage.heap_pop s.min_heap_)) r → P s r)
    (h_evict : ∀ (s : KVStorage) (top : KVStorage.HeapItem) (e : KVStorage.Entry),
      KVStorage.heap_top s.min_heap_ = some top → top.expired_at ≤ now →
      KVStorage.map_find s.map_ top.key = some e → e.generation = top.generation →
      e.expired_at = top.expired_at →
      P s (KVStorage.mk (KVStorage.map_erase s.map_ top.key)
        (KVStorage.sorted_erase s.sorted_ top.key) (KVStorage.heap_pop s.min_heap_),
        some (top.key, e.value_))) :
    ∀ (fuel : Nat) (s : KVStorage), s.min_heap_.length ≤ fuel →
      P s (KVStorage.removeOneExpiredEntry_loop now fuel s) := by
  intro fuel
  induction fuel with
  | zero =>
    intro s hl
    have hnil : s.min_heap_ = [] := List.length_eq_zero.1 (Nat.le_zero.1 hl)
    exact h_empty s ((KVStorage.heap_top_eq_none_iff _).2 hnil)
  | succ fuel ih =>
    intro s hl
    cases ht : KVStorage.heap_top s.min_heap_ with
    | none =>
      simp only [KVStorage.removeOneExpiredEntry_loop, ht]
      exact h_empty s ht
    | some top =>
      have hlen := KVStorage.heap_pop_length ht
      have hrec := ih (KVStorage.mk s.map_ s.sorted_ (KVStorage.heap_pop s.min_heap_))
        (by show (KVStorage.heap_pop s.min_heap_).length ≤ fuel; omega)
      by_cases hgt : top.expired_at > now
      · simp only [KVStorage.removeOneExpiredEntry_loop, ht, hgt, if_true]
        exact h_future s top ht hgt
      · have hle : top.expired_at ≤ now := Nat.le_of_not_lt hgt
        cases hf : KVStorage.map_find s.map_ top.key with
        | none =>
          simp only [KVStorage.removeOneExpiredEntry_loop, ht, hgt, if_false, hf]
          exact h_stale s top _ ht hle (by simp [hf]) hrec
        | some e =>
          by_cases hg : e.generation = top.generation
          · by_cases hx : e.expired_at = top.expired_at
            · simp only [KVStorage.removeOneExpiredEntry_loop, ht, hgt, if_false, hf, hg, hx,
                ne_eq, not_true_eq_false]
              exact h_evict s top e ht hle hf hg hx
            · simp only [KVStorage.removeOneExpiredEntry_loop, ht, hgt, if_false, hf, hg, hx,
                ne_eq, not_true_eq_false, not_false_eq_true, if_true]
              exact h_stale s top _ ht hle
                (by intro e1 he1; rw [hf] at he1; cases he1; exact Or.inr hx) hrec
          · simp only [KVStorage.removeOneExpiredEntry_loop, ht, hgt, if_false, hf, hg,
              ne_eq, not_false_eq_true, if_true]
            exact h_stale s top _ ht hle
              (by intro e1 he1; rw [hf] at he1; cases he1; exact Or.inl hg) hrec

theorem KVStorage.removeOneExpiredEntry_cases (now : Nat)
    (P : KVStorage → KVStorage × Option (String × String) → Prop)
    (h_empty : ∀ s : KVStorage, KVStorage.heap_top s.min_heap_ = none → P s (s, none))
    (h_future : ∀ (s : KVStorage) (top : KVStorage.HeapItem),
      KVStorage.heap_top s.min_heap_ = some top → top.expired_at > now → P s (s, none))
    (h_stale : ∀ (s : KVStorage) (top : KVStorage.HeapItem) (r : KVStorage × Option (String × String)),
      KVStorage.heap_top s.min_heap_ = some top → top.expired_at ≤ now →
      (∀ e, KVStorage.map_find s.map_ top.key = some e →
        e.generation ≠ top.generation ∨ e.expired_at ≠ top.expired_at) →
      P (KVStorage.mk s.map_ s.sorted_ (KVStorage.heap_pop s.min_heap_)) r → P s r)
    (h_evict : ∀ (s : KVStorage) (top : KVStorage.HeapItem) (e : KVStorage.Entry),
      KVStorage.heap_top s.min_heap_ = some top → top.expired_at ≤ now →
      KVStorage.map_find s.map_ top.key = some e → e.generation = top.generation →
      e.expired_at = top.expired_at →
      P s (KVStorage.mk (KVStorage.map_erase s.map_ top.key)
        (KVStorage.sorted_erase s.sorted_ top.key) (KVStorage.heap_pop s.min_heap_),
        some (top.key, e.value_))) (s : KVStorage) :
    P s (KVStorage.removeOneExpiredEntry s now) :=
  KVStorage.removeOneExpiredEntry_loop_cases now P h_empty h_future h_stale h_evict _ s
    (Nat.le_refl _)

/-- The fuel of the loop is immaterial once it covers the queue length: the loop then stops
at one of its own exits, never for lack of fuel. -/
theorem KVStorage.removeOneExpiredEntry_loop_fuel (now : Nat) :
    ∀ (fuel1 fuel2 : Nat) (s : KVStorage), s.min_heap_.length ≤ fuel1 →
      s.min_heap_.length ≤ fuel2 →
      KVStorage.removeOneExpiredEntry_loop now fuel1 s =
        KVStorage.removeOneExpiredEntry_loop now fuel2 s := by
  have hzero : ∀ (fuel : Nat) (s : KVStorage), s.min_heap_.length ≤ 0 →
      KVStorage.removeOneExpiredEntry_loop now fuel s = (s, none) := by
    intro fuel s hl
    have hnil : s.min_heap_ = [] := List.length_eq_zero.1 (Nat.le_zero.1 hl)
    have ht : KVStorage.heap_top s.min_heap_ = none := (KVStorage.heap_top_eq_none_iff _).2 hnil
    cases fuel with
    | zero => rfl
    | succ fuel => simp only [KVStorage.removeOneExpiredEntry_loop, ht]
  intro fuel1
  induction fuel1 with
  | zero =>
    intro fuel2 s h1 _
    rw [hzero 0 s h1, hzero fuel2 s h1]
  | succ fuel1 ih =>
    intro fuel2 s h1 h2
    cases fuel2 with
    | zero => rw [hzero 0 s h2, hzero (fuel1 + 1) s h2]
    | succ fuel2 =>
      cases ht : KVStorage.heap_top s.min_heap_ with
      | none => simp only [KVStorage.removeOneExpiredEntry_loop, ht]
      | some top =>
        have hlen := KVStorage.heap_pop_length ht
        have hrec := ih fuel2 (KVStorage.mk s.map_ s.sorted_ (KVStorage.heap_pop s.min_heap_))
          (by show (KVStorage.heap_pop s.min_heap_).length ≤ fuel1; omega)
          (by show (KVStorage.heap_pop s.min_heap_).length ≤ fuel2; omega)
        simp only [KVStorage.removeOneExpiredEntry_loop, ht, hrec]

/-! ## The representation invariant -/

theorem KVStorage.WF_empty : KVStorage.WF KVStorage.empty := by
  refine ⟨?_, ?_, ?_, ?_⟩
  · simp [KVStorage.keys, KVStorage.empty]
  · simp [KVStorage.empty]
  · simp [KVStorage.keys, KVStorage.empty]
  · intro k e h
    simp [KVStorage.empty, KVStorage.map_find] at h

theorem KVStorage.WF_erase {s : KVStorage} (k : String) (h1 : List KVStorage.HeapItem)
    (hwf : KVStorage.WF s)
    (hcov : ∀ k1 e1, k1 ≠ k → KVStorage.map_find s.map_ k1 = some e1 →
      e1.expired_at ≠ KVStorage.k_infinite →
      KVStorage.HeapItem.mk e1.expired_at e1.generation k1 ∈ h1) :
    KVStorage.WF (KVStorage.mk (KVStorage.map_erase s.map_ k)
      (KVStorage.sorted_erase s.sorted_ k) h1) := by
  have hnd : (s.map_.map Prod.fst).Nodup := hwf.nodup
  refine ⟨?_, ?_, ?_, ?_⟩
  · exact KVStorage.map_erase_nodup k hnd
  · exact KVStorage.sorted_erase_pairwise k hwf.sorted
  · intro x
    show x ∈ KVStorage.sorted_erase s.sorted_ k ↔ x ∈ (KVStorage.map_erase s.map_ k).map Prod.fst
    rw [KVStorage.mem_sorted_erase, KVStorage.map_erase_keys, hnd.mem_erase_iff, hwf.same_keys]
    exact and_comm
  · intro k1 e1 hf hx
    have hne : k1 ≠ k := by
      intro h
      subst h
      rw [show (KVStorage.mk (KVStorage.map_erase s.map_ k1)
        (KVStorage.sorted_erase s.sorted_ k1) h1).map_ = KVStorage.map_erase s.map_ k1 from rfl,
        KVStorage.map_find_erase_self k1 hnd] at hf
      cases hf
    have hf1 : KVStorage.map_find (KVStorage.map_erase s.map_ k) k1 = some e1 := hf
    rw [KVStorage.map_find_erase_ne _ hne] at hf1
    exact hcov k1 e1 hne hf1 hx

theorem KVStorage.WF_remove {s : KVStorage} (k : String) (hwf : KVStorage.WF s) :
    KVStorage.WF (KVStorage.remove s k).1 := by
  unfold KVStorage.remove
  cases h : KVStorage.map_find s.map_ k with
  | none => exact hwf
  | some e => exact KVStorage.WF_erase k s.min_heap_ hwf (fun k1 e1 _ hf hx => hwf.covered k1 e1 hf hx)

theorem KVStorage.WF_set {s : KVStorage} (now : Nat) (key value : String) (ttl : Nat)
    (hwf : KVStorage.WF s) : KVStorage.WF (KVStorage.set s now key value ttl) := by
  have hinf : ∀ e : KVStorage.Entry,
      e.expired_at = (if ttl = 0 then KVStorage.k_infinite else (now + ttl) % 2 ^ 64) →
      e.expired_at ≠ KVStorage.k_infinite → ttl ≠ 0 := by
    intro e he hx h0
    rw [if_pos h0] at he
    exact hx he
  unfold KVStorage.set
  cases h : KVStorage.map_find s.map_ key with
  | none =>
    have hnot : key ∉ s.map_.map Prod.fst := (KVStorage.map_find_eq_none_iff _ _).1 h
    have hcov : ∀ (hp : List KVStorage.HeapItem), (∀ x ∈ s.min_heap_, x ∈ hp) →
        (ttl ≠ 0 → KVStorage.HeapItem.mk
          (if ttl = 0 then KVStorage.k_infinite else (now + ttl) % 2 ^ 64) 1 key ∈ hp) →
        KVStorage.WF (KVStorage.mk
          ((key, KVStorage.Entry.mk value
            (if ttl = 0 then KVStorage.k_infinite else (now + ttl) % 2 ^ 64) 1) :: s.map_)
          (KVStorage.sorted_emplace s.sorted_ key) hp) := by
      intro hp hsub hnew
      refine ⟨?_, ?_, ?_, ?_⟩
      · show ((key, _) :: s.map_).map Prod.fst |>.Nodup
        rw [List.map_cons, List.nodup_cons]
        exact ⟨hnot, hwf.nodup⟩
      · exact KVStorage.sorted_emplace_pairwise key hwf.sorted
      · intro x
        show x ∈ KVStorage.sorted_emplace s.sorted_ key ↔ x ∈ ((key, _) :: s.map_).map Prod.fst
        rw [KVStorage.mem_sorted_emplace, List.map_cons, List.mem_cons, hwf.same_keys]
        rfl
      · intro k1 e1 hf hx
        by_cases hk : key = k1
        · subst hk
          simp only [KVStorage.map_find, if_true, Option.some.injEq] at hf
          subst hf
          exact hnew (hinf _ rfl hx)
        · simp only [KVStorage.map_find, if_neg hk] at hf
          exact hsub _ (hwf.covered k1 e1 hf hx)
    by_cases ht : ttl = 0
    · simp only [ht, ne_eq, not_true_eq_false, if_false]
      have := hcov s.min_heap_ (fun x hx => hx) (fun h0 => absurd ht h0)
      simpa only [ht, if_true] using this
    · simp only [ne_eq, ht, not_false_eq_true, if_true, KVStorage.push_to_heap]
      have := hcov (KVStorage.HeapItem.mk ((now + ttl) % 2 ^ 64) 1 key :: s.min_heap_)
        (fun x hx => List.mem_cons_of_mem _ hx) (fun _ => by simp [ht])
      simpa only [ht, if_false] using this
  | some old =>
    have hcov : ∀ (hp : List KVStorage.HeapItem), (∀ x ∈ s.min_heap_, x ∈ hp) →
        (ttl ≠ 0 → KVStorage.HeapItem.mk
          (if ttl = 0 then KVStorage.k_infinite else (now + ttl) % 2 ^ 64)
          ((old.generation + 1) % 2 ^ 64) key ∈ hp) →
        KVStorage.WF (KVStorage.mk
          (KVStorage.map_assign s.map_ key (KVStorage.Entry.mk value
            (if ttl = 0 then KVStorage.k_infinite else (now + ttl) % 2 ^ 64)
            ((old.generation + 1) % 2 ^ 64)))
          s.sorted_ hp) := by
      intro hp hsub hnew
      refine ⟨?_, ?_, ?_, ?_⟩
      · show ((KVStorage.map_assign s.map_ key _).map Prod.fst).Nodup
        rw [KVStorage.map_assign_keys]
        exact hwf.nodup
      · exact hwf.sorted
      · intro x
        show x ∈ s.sorted_ ↔ x ∈ (KVStorage.map_assign s.map_ key _).map Prod.fst
        rw [KVStorage.map_assign_keys]
        exact hwf.same_keys x
      · intro k1 e1 hf hx
        have hf1 : KVStorage.map_find (KVStorage.map_assign s.map_ key _) k1 = some e1 := hf
        by_cases hk : k1 = key
        · subst hk
          rw [KVStorage.map_find_assign_self _ h] at hf1
          simp only [Option.some.injEq] at hf1
          subst hf1
          exact hnew (hinf _ rfl hx)
        · rw [KVStorage.map_find_assign_ne _ _ hk] at hf1
          exact hsub _ (hwf.covered k1 e1 hf1 hx)
    by_cases ht : ttl = 0
    · simp only [ht, ne_eq, not_true_eq_false, if_false]
      have := hcov s.min_heap_ (fun x hx => hx) (fun h0 => absurd ht h0)
      simpa only [ht, if_true] using this
    · simp only [ne_eq, ht, not_false_eq_true, if_true, KVStorage.push_to_heap]
      have := hcov (KVStorage.HeapItem.mk ((now + ttl) % 2 ^ 64)
        ((old.generation + 1) % 2 ^ 64) key :: s.min_heap_)
        (fun x hx => List.mem_cons_of_mem _ hx) (fun _ => by simp [ht])
      simpa only [ht, if_false] using this

theorem KVStorage.WF_pop_stale {s : KVStorage} {top : KVStorage.HeapItem}
    (hwf : KVStorage.WF s) (ht : KVStorage.heap_top s.min_heap_ = some top)
    (hst : ∀ e, KVStorage.map_find s.map_ top.key = some e →
      e.generation ≠ top.generation ∨ e.expired_at ≠ top.expired_at) :
    KVStorage.WF (KVStorage.mk s.map_ s.sorted_ (KVStorage.heap_pop s.min_heap_)) := by
  refine ⟨hwf.nodup, hwf.sorted, hwf.same_keys, ?_⟩
  intro k e hf hx
  have hf1 : KVStorage.map_find s.map_ k = some e := hf
  show _ ∈ KVStorage.heap_pop s.min_heap_
  rw [KVStorage.heap_pop_eq ht]
  have hne : KVStorage.HeapItem.mk e.expired_at e.generation k ≠ top := by
    intro h
    subst h
    rcases hst e hf1 with h1 | h1 <;> exact h1 rfl
  exact (List.mem_erase_of_ne hne).2 (hwf.covered k e hf1 hx)

theorem KVStorage.WF_evict {s : KVStorage} {top : KVStorage.HeapItem}
    (hwf : KVStorage.WF s) (ht : KVStorage.heap_top s.min_heap_ = some top) :
    KVStorage.WF (KVStorage.mk (KVStorage.map_erase s.map_ top.key)
      (KVStorage.sorted_erase s.sorted_ top.key) (KVStorage.heap_pop s.min_heap_)) := by
  apply KVStorage.WF_erase top.key _ hwf
  intro k1 e1 hne hf hx
  rw [KVStorage.heap_pop_eq ht]
  have hne1 : KVStorage.HeapItem.mk e1.expired_at e1.generation k1 ≠ top := by
    intro h
    subst h
    exact hne rfl
  exact (List.mem_erase_of_ne hne1).2 (hwf.covered k1 e1 hf hx)

theorem KVStorage.WF_removeOneExpiredEntry (s : KVStorage) (now : Nat) :
    KVStorage.WF s → KVStorage.WF (KVStorage.removeOneExpiredEntry s now).1 := by
  apply KVStorage.removeOneExpiredEntry_cases now (fun s r => KVStorage.WF s → KVStorage.WF r.1)
  · intro s _ h
    exact h
  · intro s top _ _ h
    exact h
  · intro s top r ht _ hst ih hwf
    exact ih (KVStorage.WF_pop_stale hwf ht hst)
  · intro s top e ht _ _ _ _ hwf
    exact KVStorage.WF_evict hwf ht

theorem KVStorage.WF_step {s : KVStorage} (now : Nat) (op : KVStorage.Op)
    (hwf : KVStorage.WF s) : KVStorage.WF (KVStorage.step s now op) := by
  cases op with
  | set key value ttl => exact KVStorage.WF_set now key value ttl hwf
  | remove key => exact KVStorage.WF_remove key hwf
  | get key => exact hwf
  | getManySorted key count => exact hwf
  | removeOneExpiredEntry => exact KVStorage.WF_removeOneExpiredEntry s now hwf

theorem KVStorage.WF_ctor (entries : List (String × String × Nat)) (now : Nat) :
    KVStorage.WF (KVStorage.ctor entries now) := by
  unfold KVStorage.ctor
  have : ∀ (l : List (String × String × Nat)) (s : KVStorage), KVStorage.WF s →
      KVStorage.WF (l.foldl (fun s e => KVStorage.set s now e.1 e.2.1 e.2.2) s) := by
    intro l
    induction l with
    | nil => intro s h; exact h
    | cons e l ih =>
      intro s h
      exact ih _ (KVStorage.WF_set now e.1 e.2.1 e.2.2 h)
  exact this entries _ KVStorage.WF_empty

theorem KVStorage.WF_of_reachable {s : KVStorage} (h : KVStorage.Reachable s) :
    KVStorage.WF s := by
  induction h with
  | ctor entries now => exact KVStorage.WF_ctor entries now
  | step now op _ ih => exact KVStorage.WF_step now op ih

theorem KVStorage.WF_run {s : KVStorage} (ops : List (Nat × KVStorage.Op))
    (hwf : KVStorage.WF s) : KVStorage.WF (KVStorage.run s ops) := by
  induction ops generalizing s with
  | nil => exact hwf
  | cons p ops ih => exact ih (KVStorage.WF_step p.1 p.2 hwf)

theorem KVStorage.reachable_run {s : KVStorage} (ops : List (Nat × KVStorage.Op))
    (h : KVStorage.Reachable s) : KVStorage.Reachable (KVStorage.run s ops) := by
  induction ops generalizing s with
  | nil => exact h
  | cons p ops ih => exact ih (KVStorage.Reachable.step p.1 p.2 h)

/-- What one `removeOneExpiredEntry()` call does: without a result the primary map and the
order index are untouched; with the result `(k, v)` the record of `k` had value `v`, an
expiration at most `now` and a queue entry with its generation and expiration, and the call
erased `k` from the primary map and the order index. -/
theorem KVStorage.removeOneExpiredEntry_spec (s : KVStorage) (now : Nat) :
    ((KVStorage.removeOneExpiredEntry s now).2 = none →
      (KVStorage.removeOneExpiredEntry s now).1.map_ = s.map_ ∧
      (KVStorage.removeOneExpiredEntry s now).1.sorted_ = s.sorted_) ∧
    (∀ k v, (KVStorage.removeOneExpiredEntry s now).2 = some (k, v) →
      ∃ e, KVStorage.map_find s.map_ k = some e ∧ e.value_ = v ∧ e.expired_at ≤ now ∧
        KVStorage.HeapItem.mk e.expired_at e.generation k ∈ s.min_heap_ ∧
        (KVStorage.removeOneExpiredEntry s now).1.map_ = KVStorage.map_erase s.map_ k ∧
        (KVStorage.removeOneExpiredEntry s now).1.sorted_ =
          KVStorage.sorted_erase s.sorted_ k) := by
  apply KVStorage.removeOneExpiredEntry_cases now (fun s r =>
    (r.2 = none → r.1.map_ = s.map_ ∧ r.1.sorted_ = s.sorted_) ∧
    (∀ k v, r.2 = some (k, v) →
      ∃ e, KVStorage.map_find s.map_ k = some e ∧ e.value_ = v ∧ e.expired_at ≤ now ∧
        KVStorage.HeapItem.mk e.expired_at e.generation k ∈ s.min_heap_ ∧
        r.1.map_ = KVStorage.map_erase s.map_ k ∧
        r.1.sorted_ = KVStorage.sorted_erase s.sorted_ k))
  · intro s _
    exact ⟨fun _ => ⟨rfl, rfl⟩, fun k v h => by cases h⟩
  · intro s top _ _
    exact ⟨fun _ => ⟨rfl, rfl⟩, fun k v h => by cases h⟩
  · intro s top r ht _ _ ih
    refine ⟨ih.1, ?_⟩
    intro k v hr
    obtain ⟨e, h1, h2, h3, h4, h5, h6⟩ := ih.2 k v hr
    refine ⟨e, h1, h2, h3, ?_, h5, h6⟩
    have h4a : KVStorage.HeapItem.mk e.expired_at e.generation k ∈
        KVStorage.heap_pop s.min_heap_ := h4
    rw [KVStorage.heap_pop_eq ht] at h4a
    exact List.mem_of_mem_erase h4a
  · intro s top e ht hle hf hg hx
    refine ⟨fun h => (by cases h), ?_⟩
    intro k v hr
    simp only [Option.some.injEq, Prod.mk.injEq] at hr
    obtain ⟨hk, hv⟩ := hr
    subst hk
    refine ⟨e, hf, hv, by omega, ?_, rfl, rfl⟩
    have : KVStorage.HeapItem.mk e.expired_at e.generation top.key = top := by
      rw [hg, hx]
    rw [this]
    exact KVStorage.heap_top_mem ht

/-! ## Records that eviction cannot touch -/

theorem KVStorage.removeOneExpiredEntry_keeps {s : KVStorage} {now : Nat} {k : String}
    {e : KVStorage.Entry} (hf : KVStorage.map_find s.map_ k = some e)
    (hlive : ¬ e.expired_at ≤ now) :
    KVStorage.map_find (KVStorage.removeOneExpiredEntry s now).1.map_ k = some e ∧
    ∀ kv, (KVStorage.removeOneExpiredEntry s now).2 = some kv → kv.1 ≠ k := by
  have hspec := KVStorage.removeOneExpiredEntry_spec s now
  cases hr : (KVStorage.removeOneExpiredEntry s now).2 with
  | none =>
    rw [(hspec.1 hr).1]
    exact ⟨hf, fun kv h => by cases h⟩
  | some kv =>
    obtain ⟨k1, v1⟩ := kv
    obtain ⟨e1, h1, _, h3, _, h5, _⟩ := hspec.2 k1 v1 hr
    have hne : k ≠ k1 := by
      intro h
      subst h
      rw [hf] at h1
      cases h1
      exact hlive h3
    rw [h5, KVStorage.map_find_erase_ne _ hne]
    refine ⟨hf, ?_⟩
    intro kv h
    cases h
    exact fun h => hne h.symm

theorem KVStorage.step_keeps {s : KVStorage} {k : String} {e : KVStorage.Entry}
    (now : Nat) (op : KVStorage.Op) (hf : KVStorage.map_find s.map_ k = some e)
    (hw : KVStorage.Op.writes k op = false)
    (hlive : KVStorage.Op.evicts op = true → ¬ e.expired_at ≤ now) :
    KVStorage.map_find (KVStorage.step s now op).map_ k = some e := by
  cases op with
  | set key value ttl =>
    have hne : k ≠ key := by
      intro h
      simp [KVStorage.Op.writes, h] at hw
    show KVStorage.map_find (KVStorage.set s now key value ttl).map_ k = some e
    rw [KVStorage.set_map_find_ne _ _ _ _ _ hne]
    exact hf
  | remove key =>
    have hne : k ≠ key := by
      intro h
      simp [KVStorage.Op.writes, h] at hw
    show KVStorage.map_find (KVStorage.remove s key).1.map_ k = some e
    rw [KVStorage.remove_map_find_ne _ _ hne]
    exact hf
  | get key => exact hf
  | getManySorted key count => exact hf
  | removeOneExpiredEntry => exact (KVStorage.removeOneExpiredEntry_keeps hf (hlive rfl)).1

theorem KVStorage.run_keeps {s : KVStorage} {k : String} {e : KVStorage.Entry}
    (ops : List (Nat × KVStorage.Op)) (hf : KVStorage.map_find s.map_ k = some e)
    (hops : ∀ p ∈ ops, KVStorage.Op.writes k p.2 = false ∧
      (KVStorage.Op.evicts p.2 = true → ¬ e.expired_at ≤ p.1)) :
    KVStorage.map_find (KVStorage.run s ops).map_ k = some e := by
  induction ops generalizing s with
  | nil => exact hf
  | cons p ops ih =>
    obtain ⟨now, op⟩ := p
    have hp := hops (now, op) (List.mem_cons_self _ _)
    exact ih (KVStorage.step_keeps now op hf hp.1 hp.2)
      (fun q hq => hops q (List.mem_cons_of_mem _ hq))

theorem KVStorage.drain_keeps {s : KVStorage} {k : String} {e : KVStorage.Entry}
    (nows : List Nat) (hf : KVStorage.map_find s.map_ k = some e)
    (hlive : ∀ n ∈ nows, ¬ e.expired_at ≤ n) :
    KVStorage.map_find (KVStorage.drain nows s).1.map_ k = some e ∧
    ∀ kv, some kv ∈ (KVStorage.drain nows s).2 → kv.1 ≠ k := by
  induction nows generalizing s with
  | nil => exact ⟨hf, fun kv h => by simp [KVStorage.drain] at h⟩
  | cons n nows ih =>
    have h1 := KVStorage.removeOneExpiredEntry_keeps hf (hlive n (List.mem_cons_self _ _))
    have h2 := ih h1.1 (fun m hm => hlive m (List.mem_cons_of_mem _ hm))
    refine ⟨h2.1, ?_⟩
    intro kv hkv
    simp only [KVStorage.drain, List.mem_cons] at hkv
    rcases hkv with h | h
    · exact h1.2 kv h.symm
    · exact h2.2 kv h

/-! ## The range query -/

theorem KVStorage.getManySorted_loop_eq (s : KVStorage) (now count : Nat) (it : List String)
    (res : List (String × String)) :
    KVStorage.getManySorted_loop s now count it res =
      res ++ (it.filterMap (fun k => (KVStorage.get s now k).map (fun v => (k, v)))).take
        (count - res.length) := by
  induction it generalizing res with
  | nil => simp [KVStorage.getManySorted_loop]
  | cons k it ih =>
    unfold KVStorage.getManySorted_loop
    by_cases hlt : res.length < count
    · rw [if_pos hlt]
      have hsucc : count - res.length = (count - (res.length + 1)) + 1 := by omega
      cases hf : KVStorage.map_find s.map_ k with
      | none =>
        have hg : KVStorage.get s now k = none := by simp [KVStorage.get, hf]
        simp only [List.filterMap_cons, hg, Option.map_none']
        exact ih res
      | some e =>
        by_cases hx : KVStorage.is_expired e now = true
        · have hg : KVStorage.get s now k = none := by simp [KVStorage.get, hf, hx]
          simp only [hx, if_true, List.filterMap_cons, hg, Option.map_none']
          exact ih res
        · have hg : KVStorage.get s now k = some e.value_ := by simp [KVStorage.get, hf, hx]
          simp only [hx, List.filterMap_cons, hg, Option.map_some']
          rw [if_neg (by simp), ih, hsucc, List.take_succ_cons]
          simp
    · rw [if_neg hlt]
      have h0 : count - res.length = 0 := by omega
      simp [h0]

theorem KVStorage.getManySorted_eq (s : KVStorage) (now : Nat) (key : String) (count : Nat) :
    KVStorage.getManySorted s now key count =
      ((KVStorage.sorted_upper_bound s.sorted_ key).filterMap
        (fun k => (KVStorage.get s now k).map (fun v => (k, v)))).take count := by
  unfold KVStorage.getManySorted
  rw [KVStorage.getManySorted_loop_eq]
  simp

theorem KVStorage.filterMap_get_keys (s : KVStorage) (now : Nat) (l : List String) :
    (l.filterMap (fun k => (KVStorage.get s now k).map (fun v => (k, v)))).map Prod.fst =
      l.filter (fun k => (KVStorage.get s now k).isSome) := by
  induction l with
  | nil => rfl
  | cons k l ih =>
    cases hg : KVStorage.get s now k with
    | none => simp [List.filterMap_cons, hg, ih]
    | some v => simp [List.filterMap_cons, hg, ih]

theorem KVStorage.mem_filterMap_get (s : KVStorage) (now : Nat) (l : List String)
    (p : String × String) :
    p ∈ l.filterMap (fun k => (KVStorage.get s now k).map (fun v => (k, v))) ↔
      p.1 ∈ l ∧ KVStorage.get s now p.1 = some p.2 := by
  obtain ⟨k, v⟩ := p
  simp only [List.mem_filterMap, Option.map_eq_some', Prod.mk.injEq]
  constructor
  · rintro ⟨a, ha, b, hb, rfl, rfl⟩
    exact ⟨ha, hb⟩
  · rintro ⟨h1, h2⟩
    exact ⟨k, h1, v, h2, rfl, rfl⟩

theorem KVStorage.map_erase_perm {m : List (String × KVStorage.Entry)} {k : String}
    {e : KVStorage.Entry} (hf : KVStorage.map_find m k = some e) :
    m.Perm ((k, e) :: KVStorage.map_erase m k) := by
  induction m with
  | nil => simp [KVStorage.map_find] at hf
  | cons p m ih =>
    obtain ⟨k1, e1⟩ := p
    by_cases hk : k1 = k
    · simp only [KVStorage.map_find, if_pos hk, Option.some.injEq] at hf
      subst hk
      subst hf
      simp [KVStorage.map_erase]
    · simp only [KVStorage.map_find, if_neg hk] at hf
      simp only [KVStorage.map_erase, if_neg hk]
      exact ((ih hf).cons (k1, e1)).trans (List.Perm.swap _ _ _)

theorem KVStorage.remove_map_find_self {s : KVStorage} (k : String) (hwf : KVStorage.WF s) :
    KVStorage.map_find (KVStorage.remove s k).1.map_ k = none := by
  unfold KVStorage.remove
  cases h : KVStorage.map_find s.map_ k with
  | none => exact h
  | some e => exact KVStorage.map_find_erase_self k hwf.nodup

theorem KVStorage.removeOneExpiredEntry_some_of_expired (s : KVStorage) (now : Nat) :
    KVStorage.WF s →
    (∃ k e, KVStorage.map_find s.map_ k = some e ∧ KVStorage.is_expired e now = true) →
    (KVStorage.removeOneExpiredEntry s now).2 ≠ none := by
  apply KVStorage.removeOneExpiredEntry_cases now (fun s r => KVStorage.WF s →
    (∃ k e, KVStorage.map_find s.map_ k = some e ∧ KVStorage.is_expired e now = true) →
    r.2 ≠ none)
  · intro s ht hwf ⟨k, e, hf, hx⟩
    rw [KVStorage.is_expired_iff] at hx
    have hmem := hwf.covered k e hf hx.1
    rw [(KVStorage.heap_top_eq_none_iff _).1 ht] at hmem
    cases hmem
  · intro s top ht hgt hwf ⟨k, e, hf, hx⟩
    rw [KVStorage.is_expired_iff] at hx
    have hmem := hwf.covered k e hf hx.1
    have hle := KVStorage.heap_top_le ht _ hmem
    have hle2 : top.expired_at ≤ e.expired_at := hle
    omega
  · intro s top r ht _ hst ih hwf hex
    exact ih (KVStorage.WF_pop_stale hwf ht hst) hex
  · intro s top e _ _ _ _ _ _ _ h
    cases h

theorem KVStorage.removeOneExpiredEntry_none_of_no_expired {s : KVStorage} {now : Nat}
    (hnow : now < KVStorage.k_infinite) (hno : KVStorage.expiredRecords s now = []) :
    (KVStorage.removeOneExpiredEntry s now).2 = none := by
  cases hr : (KVStorage.removeOneExpiredEntry s now).2 with
  | none => rfl
  | some kv =>
    obtain ⟨k, v⟩ := kv
    obtain ⟨e, hf, _, hle, _⟩ := (KVStorage.removeOneExpiredEntry_spec s now).2 k v hr
    have hmem : (k, e) ∈ KVStorage.expiredRecords s now :=
      List.mem_filter.2 ⟨KVStorage.map_find_mem hf, KVStorage.is_expired_of_le hnow hle⟩
    rw [hno] at hmem
    cases hmem

theorem KVStorage.drain_expired (now : Nat) (hnow : now < KVStorage.k_infinite) :
    ∀ (m : Nat) (s : KVStorage), KVStorage.WF s →
      (KVStorage.expiredRecords s now).length = m →
      ∃ out : List (String × String),
        (KVStorage.drain (List.replicate m now) s).2 = out.map some ∧
        out.Perm ((KVStorage.expiredRecords s now).map (fun p => (p.1, p.2.value_))) ∧
        KVStorage.expiredRecords (KVStorage.drain (List.replicate m now) s).1 now = [] := by
  intro m
  induction m with
  | zero =>
    intro s _ hlen
    have hnil := List.length_eq_zero.1 hlen
    exact ⟨[], rfl, by rw [hnil]; exact List.Perm.nil, hnil⟩
  | succ m ih =>
    intro s hwf hlen
    have hex : ∃ k e, KVStorage.map_find s.map_ k = some e ∧
        KVStorage.is_expired e now = true := by
      cases hl : KVStorage.expiredRecords s now with
      | nil => rw [hl] at hlen; cases hlen
      | cons p l =>
        have hp : p ∈ KVStorage.expiredRecords s now := by rw [hl]; exact List.mem_cons_self _ _
        have hp2 := List.mem_filter.1 hp
        exact ⟨p.1, p.2, KVStorage.map_find_of_mem hwf.nodup hp2.1, hp2.2⟩
    have hsome := KVStorage.removeOneExpiredEntry_some_of_expired s now hwf hex
    cases hr : (KVStorage.removeOneExpiredEntry s now).2 with
    | none => exact absurd hr hsome
    | some kv =>
      obtain ⟨k, v⟩ := kv
      obtain ⟨e, hf, hv, hle, _, hmap, _⟩ := (KVStorage.removeOneExpiredEntry_spec s now).2 k v hr
      have hx : KVStorage.is_expired e now = true := KVStorage.is_expired_of_le hnow hle
      have hperm : (KVStorage.expiredRecords s now).Perm
          ((k, e) :: KVStorage.expiredRecords (KVStorage.removeOneExpiredEntry s now).1 now) := by
        unfold KVStorage.expiredRecords
        rw [hmap]
        have h1 := (KVStorage.map_erase_perm hf).filter (fun p => KVStorage.is_expired p.2 now)
        rwa [List.filter_cons_of_pos (by exact hx)] at h1
      have hlen2 : (KVStorage.expiredRecords (KVStorage.removeOneExpiredEntry s now).1 now).length
          = m := by
        have := hperm.length_eq
        rw [hlen, List.length_cons] at this
        omega
      obtain ⟨out, ho1, ho2, ho3⟩ := ih _ (KVStorage.WF_removeOneExpiredEntry s now hwf) hlen2
      refine ⟨(k, v) :: out, ?_, ?_, ?_⟩
      · simp only [List.replicate_succ, KVStorage.drain, hr, ho1, List.map_cons]
      · refine List.Perm.trans ?_ (hperm.map _).symm
        rw [List.map_cons, hv]
        exact ho2.cons _
      · simpa only [List.replicate_succ, KVStorage.drain] using ho3

/-! ## Reads after an eviction -/

theorem KVStorage.getManySorted_congr {s1 s2 : KVStorage} (now : Nat) (key : String)
    (count : Nat) (hs : s1.sorted_ = s2.sorted_)
    (hg : ∀ k, KVStorage.get s1 now k = KVStorage.get s2 now k) :
    KVStorage.getManySorted s1 now key count = KVStorage.getManySorted s2 now key count := by
  rw [KVStorage.getManySorted_eq, KVStorage.getManySorted_eq, hs]
  have : (fun k => (KVStorage.get s1 now k).map (fun v => (k, v))) =
      (fun k => (KVStorage.get s2 now k).map (fun v => (k, v))) := by
    funext k
    rw [hg k]
  rw [this]

theorem KVStorage.filterMap_sorted_erase {α : Type} (f : String → Option α) (l : List String)
    (k : String) (hk : f k = none) :
    (KVStorage.sorted_erase l k).filterMap f = l.filterMap f := by
  unfold KVStorage.sorted_erase
  induction l with
  | nil => rfl
  | cons x xs ih =>
    by_cases hx : x = k
    · subst hx
      rw [List.filter_cons_of_neg (by simp), List.filterMap_cons, hk]
      exact ih
    · rw [List.filter_cons_of_pos (by simpa using hx), List.filterMap_cons, List.filterMap_cons, ih]

theorem KVStorage.reads_after_eviction {s : KVStorage} {now : Nat} (hwf : KVStorage.WF s)
    (hnow : now < KVStorage.k_infinite) :
    (∀ k, KVStorage.get (KVStorage.removeOneExpiredEntry s now).1 now k = KVStorage.get s now k) ∧
    (∀ s0 n, KVStorage.getManySorted (KVStorage.removeOneExpiredEntry s now).1 now s0 n =
      KVStorage.getManySorted s now s0 n) := by
  have hspec := KVStorage.removeOneExpiredEntry_spec s now
  have hwf1 := KVStorage.WF_removeOneExpiredEntry s now hwf
  cases hr : (KVStorage.removeOneExpiredEntry s now).2 with
  | none =>
    obtain ⟨hm, hs⟩ := hspec.1 hr
    have hg : ∀ k, KVStorage.get (KVStorage.removeOneExpiredEntry s now).1 now k =
        KVStorage.get s now k := fun k => KVStorage.get_congr now k (by rw [hm])
    exact ⟨hg, fun s0 n => KVStorage.getManySorted_congr now s0 n hs hg⟩
  | some kv =>
    obtain ⟨k1, v1⟩ := kv
    obtain ⟨e, hf, _, hle, _, hmap, hsorted⟩ := hspec.2 k1 v1 hr
    have hx : KVStorage.is_expired e now = true := KVStorage.is_expired_of_le hnow hle
    have hold : KVStorage.get s now k1 = none := by simp [KVStorage.get, hf, hx]
    have hg : ∀ k, KVStorage.get (KVStorage.removeOneExpiredEntry s now).1 now k =
        KVStorage.get s now k := by
      intro k
      by_cases hk : k = k1
      · subst hk
        rw [hold]
        simp [KVStorage.get, hmap, KVStorage.map_find_erase_self k hwf.nodup]
      · exact KVStorage.get_congr now k (by rw [hmap, KVStorage.map_find_erase_ne _ hk])
    refine ⟨hg, ?_⟩
    intro s0 n
    rw [KVStorage.getManySorted_eq, KVStorage.getManySorted_eq,
      KVStorage.sorted_upper_bound_eq_filter s0 hwf1.sorted,
      KVStorage.sorted_upper_bound_eq_filter s0 hwf.sorted, hsorted]
    have hfun : (fun k => (KVStorage.get (KVStorage.removeOneExpiredEntry s now).1 now k).map
        (fun v => (k, v))) = (fun k => (KVStorage.get s now k).map (fun v => (k, v))) := by
      funext k
      rw [hg k]
    rw [hfun]
    have hcomm : (KVStorage.sorted_erase s.sorted_ k1).filter (fun x => KVStorage.less s0 x) =
        KVStorage.sorted_erase (s.sorted_.filter (fun x => KVStorage.less s0 x)) k1 := by
      unfold KVStorage.sorted_erase
      rw [List.filter_filter, List.filter_filter]
      congr 1
      funext x
      exact Bool.and_comm _ _
    rw [hcomm, KVStorage.filterMap_sorted_erase _ _ k1 (by rw [hold]; rfl)]

/-! ## The constructor -/

theorem KVStorage.ctor_append (l : List (String × String × Nat)) (e : String × String × Nat)
    (now : Nat) :
    KVStorage.ctor (l ++ [e]) now = KVStorage.set (KVStorage.ctor l now) now e.1 e.2.1 e.2.2 := by
  simp [KVStorage.ctor, List.foldl_append]

theorem KVStorage.run_append (s : KVStorage) (ops1 ops2 : List (Nat × KVStorage.Op)) :
    KVStorage.run s (ops1 ++ ops2) = KVStorage.run (KVStorage.run s ops1) ops2 := by
  induction ops1 generalizing s with
  | nil => rfl
  | cons p ops1 ih =>
    obtain ⟨now, op⟩ := p
    exact ih _

theorem KVStorage.generation_of_set_self (s : KVStorage) (now : Nat) (k v : String) (ttl : Nat) :
    KVStorage.generation_of (KVStorage.set s now k v ttl) k =
      (KVStorage.generation_of s k + 1) % 2 ^ 64 := by
  unfold KVStorage.generation_of KVStorage.set
  cases h : KVStorage.map_find s.map_ k with
  | none =>
    by_cases ht : ttl = 0 <;> simp [ht, KVStorage.push_to_heap, KVStorage.map_find]
  | some old =>
    by_cases ht : ttl = 0 <;>
      simp [ht, KVStorage.push_to_heap, KVStorage.map_find_assign_self _ h]

theorem KVStorage.generation_of_congr {s1 s2 : KVStorage} {k : String}
    (h : KVStorage.map_find s1.map_ k = KVStorage.map_find s2.map_ k) :
    KVStorage.generation_of s1 k = KVStorage.generation_of s2 k := by
  unfold KVStorage.generation_of
  rw [h]

theorem KVStorage.generation_of_ctor (entries : List (String × String × Nat)) (now : Nat)
    (k : String) :
    KVStorage.generation_of (KVStorage.ctor entries now) k =
      (entries.filter (fun e => decide (e.1 = k))).length % 2 ^ 64 := by
  induction entries using List.reverseRecOn with
  | nil => rfl
  | append_singleton l e ih =>
    rw [KVStorage.ctor_append, List.filter_append]
    by_cases hk : e.1 = k
    · subst hk
      rw [KVStorage.generation_of_set_self, ih]
      simp [List.filter_cons]
    · have hne : k ≠ e.1 := fun h => hk h.symm
      rw [KVStorage.generation_of_congr (KVStorage.set_map_find_ne _ now e.1 e.2.1 e.2.2 hne), ih]
      simp [List.filter_cons, hk]

theorem KVStorage.ctor_map_find (entries : List (String × String × Nat)) (now : Nat)
    (k v : String) (t : Nat)
    (hlast : (entries.filter (fun e => decide (e.1 = k))).getLast? = some (k, v, t)) :
    KVStorage.map_find (KVStorage.ctor entries now).map_ k =
      some (KVStorage.Entry.mk v
        (if t = 0 then KVStorage.k_infinite else (now + t) % 2 ^ 64)
        ((entries.filter (fun e => decide (e.1 = k))).length % 2 ^ 64)) := by
  induction entries using List.reverseRecOn with
  | nil => simp at hlast
  | append_singleton l e ih =>
    rw [KVStorage.ctor_append]
    rw [List.filter_append] at hlast ⊢
    by_cases hk : e.1 = k
    · have hfe : List.filter (fun e => decide (e.1 = k)) [e] = [e] := by
        simp [List.filter_cons, hk]
      rw [hfe, List.getLast?_append, List.getLast?_singleton] at hlast
      have he : e = (k, v, t) := by
        have h2 : some e = some (k, v, t) := hlast
        exact Option.some.inj h2
      subst he
      show KVStorage.map_find (KVStorage.set (KVStorage.ctor l now) now k v t).map_ k = _
      obtain ⟨g, hg⟩ := KVStorage.set_map_find_self (KVStorage.ctor l now) now k v t
      have hgen := KVStorage.generation_of_set_self (KVStorage.ctor l now) now k v t
      rw [KVStorage.generation_of, hg, KVStorage.generation_of_ctor] at hgen
      simp only at hgen
      rw [hg, hgen, hfe]
      simp
    · have hfe : List.filter (fun e => decide (e.1 = k)) [e] = [] := by
        simp [List.filter_cons, hk]
      rw [hfe, List.append_nil] at hlast ⊢
      have hne : k ≠ e.1 := fun h => hk h.symm
      rw [KVStorage.set_map_find_ne _ now e.1 e.2.1 e.2.2 hne]
      exact ih hlast

theorem KVStorage.foldl_set_eq_run (now : Nat) (l : List (String × String × Nat))
    (s : KVStorage) :
    l.foldl (fun s e => KVStorage.set s now e.1 e.2.1 e.2.2) s =
      KVStorage.run s (l.map (fun e => (now, KVStorage.Op.set e.1 e.2.1 e.2.2))) := by
  induction l generalizing s with
  | nil => rfl
  | cons e l ih => exact ih _

/-- The reachable states are the states that a sequence of calls produces from the empty
store. -/
theorem KVStorage.reachable_iff_run (s : KVStorage) :
    KVStorage.Reachable s ↔ ∃ ops, s = KVStorage.run KVStorage.empty ops := by
  constructor
  · intro h
    induction h with
    | ctor entries now => exact ⟨_, KVStorage.foldl_set_eq_run now entries KVStorage.empty⟩
    | step now op _ ih =>
      obtain ⟨ops, rfl⟩ := ih
      refine ⟨ops ++ [(now, op)], ?_⟩
      rw [KVStorage.run_append]
      rfl
  · rintro ⟨ops, rfl⟩
    exact KVStorage.reachable_run ops (KVStorage.Reachable.ctor [] 0)

/-! ## The idle state of the queue -/

theorem KVStorage.removeOneExpiredEntry_idle {s : KVStorage} {now : Nat}
    (h : ∀ x ∈ s.min_heap_, now < x.expired_at) :
    KVStorage.removeOneExpiredEntry s now = (s, none) := by
  unfold KVStorage.removeOneExpiredEntry
  rw [KVStorage.removeOneExpiredEntry_loop_fuel now s.min_heap_.length (s.min_heap_.length + 1) s
    (Nat.le_refl _) (Nat.le_succ _)]
  cases ht : KVStorage.heap_top s.min_heap_ with
  | none => simp only [KVStorage.removeOneExpiredEntry_loop, ht]
  | some top =>
    have hgt : top.expired_at > now := h top (KVStorage.heap_top_mem ht)
    simp only [KVStorage.removeOneExpiredEntry_loop, ht, hgt, if_true]

theorem KVStorage.removeOneExpiredEntry_none_exit (s : KVStorage) (now : Nat) :
    (KVStorage.removeOneExpiredEntry s now).2 = none →
      ∀ x ∈ (KVStorage.removeOneExpiredEntry s now).1.min_heap_, now < x.expired_at := by
  apply KVStorage.removeOneExpiredEntry_cases now (fun _ r =>
    r.2 = none → ∀ x ∈ r.1.min_heap_, now < x.expired_at)
  · intro s ht _ x hx
    rw [(KVStorage.heap_top_eq_none_iff _).1 ht] at hx
    cases hx
  · intro s top ht hgt _ x hx
    exact Nat.lt_of_lt_of_le hgt (KVStorage.heap_top_le ht x hx)
  · intro s top r _ _ _ ih
    exact ih
  · intro s top e _ _ _ _ _ h
    cases h

/-! ## The record and the queue entry written by `set` -/

theorem KVStorage.set_record (s : KVStorage) (now : Nat) (k v : String) (ttl : Nat) :
    KVStorage.map_find (KVStorage.set s now k v ttl).map_ k =
      some (KVStorage.Entry.mk v
        (if ttl = 0 then KVStorage.k_infinite else (now + ttl) % 2 ^ 64)
        ((KVStorage.generation_of s k + 1) % 2 ^ 64)) := by
  obtain ⟨g, hg⟩ := KVStorage.set_map_find_self s now k v ttl
  have hgen := KVStorage.generation_of_set_self s now k v ttl
  rw [KVStorage.generation_of, hg] at hgen
  simp only at hgen
  rw [hg, hgen]

theorem KVStorage.set_min_heap (s : KVStorage) (now : Nat) (k v : String) (ttl : Nat) :
    (KVStorage.set s now k v ttl).min_heap_ =
      if ttl = 0 then s.min_heap_
      else KVStorage.HeapItem.mk ((now + ttl) % 2 ^ 64)
        ((KVStorage.generation_of s k + 1) % 2 ^ 64) k :: s.min_heap_ := by
  unfold KVStorage.set KVStorage.generation_of
  cases h : KVStorage.map_find s.map_ k with
  | none => by_cases ht : ttl = 0 <;> simp [ht, KVStorage.push_to_heap]
  | some old => by_cases ht : ttl = 0 <;> simp [ht, KVStorage.push_to_heap]

theorem KVStorage.set_min_heap_mem (s : KVStorage) (now : Nat) (k v : String) (ttl : Nat)
    {x : KVStorage.HeapItem} (hx : x ∈ s.min_heap_) :
    x ∈ (KVStorage.set s now k v ttl).min_heap_ := by
  rw [KVStorage.set_min_heap]
  by_cases ht : ttl = 0
  · rw [if_pos ht]
    exact hx
  · rw [if_neg ht]
    exact List.mem_cons_of_mem _ hx

theorem KVStorage.remove_min_heap (s : KVStorage) (k : String) :
    (KVStorage.remove s k).1.min_heap_ = s.min_heap_ := by
  unfold KVStorage.remove
  cases KVStorage.map_find s.map_ k <;> rfl

/-! ## The entries popped by one eviction call -/

theorem KVStorage.is_stale_of_mismatch {s : KVStorage} {top : KVStorage.HeapItem}
    (hst : ∀ e, KVStorage.map_find s.map_ top.key = some e →
      e.generation ≠ top.generation ∨ e.expired_at ≠ top.expired_at) :
    KVStorage.is_stale s top = true := by
  unfold KVStorage.is_stale
  cases hf : KVStorage.map_find s.map_ top.key with
  | none => rfl
  | some e =>
    rcases hst e hf with h | h
    · simp [h]
    · simp [h]

theorem KVStorage.removeOneExpiredEntry_popped (s : KVStorage) (now : Nat) :
    ∃ popped : List KVStorage.HeapItem,
      s.min_heap_.Perm (popped ++ (KVStorage.removeOneExpiredEntry s now).1.min_heap_) ∧
      (∀ t ∈ popped, t.expired_at ≤ now) ∧
      ((KVStorage.removeOneExpiredEntry s now).2 = none →
        ∀ t ∈ popped, KVStorage.is_stale s t = true) := by
  apply KVStorage.removeOneExpiredEntry_cases now (fun s r =>
    ∃ popped : List KVStorage.HeapItem,
      s.min_heap_.Perm (popped ++ r.1.min_heap_) ∧
      (∀ t ∈ popped, t.expired_at ≤ now) ∧
      (r.2 = none → ∀ t ∈ popped, KVStorage.is_stale s t = true))
  · intro s _
    exact ⟨[], List.Perm.refl _, fun t ht => absurd ht (List.not_mem_nil t),
      fun _ t ht => absurd ht (List.not_mem_nil t)⟩
  · intro s top _ _
    exact ⟨[], List.Perm.refl _, fun t ht => absurd ht (List.not_mem_nil t),
      fun _ t ht => absurd ht (List.not_mem_nil t)⟩
  · intro s top r ht hle hst ih
    obtain ⟨popped, hp, hdue, hstale⟩ := ih
    have hp1 : (KVStorage.heap_pop s.min_heap_).Perm (popped ++ r.1.min_heap_) := hp
    rw [KVStorage.heap_pop_eq ht] at hp1
    refine ⟨top :: popped, ?_, ?_, ?_⟩
    · exact (List.perm_cons_erase (KVStorage.heap_top_mem ht)).trans (hp1.cons top)
    · intro t hmem
      rcases List.mem_cons.1 hmem with rfl | hmem
      · exact hle
      · exact hdue t hmem
    · intro hnone t hmem
      rcases List.mem_cons.1 hmem with rfl | hmem
      · exact KVStorage.is_stale_of_mismatch hst
      · exact hstale hnone t hmem
  · intro s top e ht hle _ _ _
    refine ⟨[top], ?_, ?_, fun h => (by cases h)⟩
    · show s.min_heap_.Perm (top :: KVStorage.heap_pop s.min_heap_)
      rw [KVStorage.heap_pop_eq ht]
      exact List.perm_cons_erase (KVStorage.heap_top_mem ht)
    · intro t hmem
      rcases List.mem_cons.1 hmem with rfl | hmem
      · exact hle
      · cases hmem

/-! ## Queue coverage of one key, and the generation of a surviving record -/

theorem KVStorage.step_covers {s : KVStorage} {k : String} (now : Nat) (op : KVStorage.Op)
    (hwf : KVStorage.WF s) (hop : KVStorage.Op.sets k op = false)
    (hcov : ∀ e, KVStorage.map_find s.map_ k = some e →
      KVStorage.HeapItem.mk e.expired_at e.generation k ∈ s.min_heap_) :
    ∀ e, KVStorage.map_find (KVStorage.step s now op).map_ k = some e →
      KVStorage.HeapItem.mk e.expired_at e.generation k ∈ (KVStorage.step s now op).min_heap_ := by
  cases op with
  | set key value ttl =>
    have hne : k ≠ key := by
      intro h
      simp [KVStorage.Op.sets, h] at hop
    intro e hf
    have hf1 : KVStorage.map_find (KVStorage.set s now key value ttl).map_ k = some e := hf
    rw [KVStorage.set_map_find_ne _ _ _ _ _ hne] at hf1
    exact KVStorage.set_min_heap_mem s now key value ttl (hcov e hf1)
  | remove key =>
    intro e hf
    have hf1 : KVStorage.map_find (KVStorage.remove s key).1.map_ k = some e := hf
    show _ ∈ (KVStorage.remove s key).1.min_heap_
    rw [KVStorage.remove_min_heap]
    by_cases hk : k = key
    · subst hk
      rw [KVStorage.remove_map_find_self k hwf] at hf1
      cases hf1
    · rw [KVStorage.remove_map_find_ne _ _ hk] at hf1
      exact hcov e hf1
  | get key => exact hcov
  | getManySorted key count => exact hcov
  | removeOneExpiredEntry =>
    show ∀ e, KVStorage.map_find (KVStorage.removeOneExpiredEntry s now).1.map_ k = some e →
      KVStorage.HeapItem.mk e.expired_at e.generation k ∈
        (KVStorage.removeOneExpiredEntry s now).1.min_heap_
    revert hcov hwf
    apply KVStorage.removeOneExpiredEntry_cases now (fun s r => KVStorage.WF s →
      (∀ e, KVStorage.map_find s.map_ k = some e →
        KVStorage.HeapItem.mk e.expired_at e.generation k ∈ s.min_heap_) →
      ∀ e, KVStorage.map_find r.1.map_ k = some e →
        KVStorage.HeapItem.mk e.expired_at e.generation k ∈ r.1.min_heap_)
    · intro s _ _ h
      exact h
    · intro s top _ _ _ h
      exact h
    · intro s top r ht _ hst ih hwf hcov
      apply ih (KVStorage.WF_pop_stale hwf ht hst)
      intro e hf
      have hf1 : KVStorage.map_find s.map_ k = some e := hf
      show _ ∈ KVStorage.heap_pop s.min_heap_
      rw [KVStorage.heap_pop_eq ht]
      have hne : KVStorage.HeapItem.mk e.expired_at e.generation k ≠ top := by
        intro h
        subst h
        rcases hst e hf1 with h1 | h1 <;> exact h1 rfl
      exact (List.mem_erase_of_ne hne).2 (hcov e hf1)
    · intro s top e0 ht _ _ _ _ hwf hcov e hf
      have hf1 : KVStorage.map_find (KVStorage.map_erase s.map_ top.key) k = some e := hf
      show _ ∈ KVStorage.heap_pop s.min_heap_
      rw [KVStorage.heap_pop_eq ht]
      have hk : k ≠ top.key := by
        intro h
        subst h
        rw [KVStorage.map_find_erase_self _ hwf.nodup] at hf1
        cases hf1
      rw [KVStorage.map_find_erase_ne _ hk] at hf1
      have hne : KVStorage.HeapItem.mk e.expired_at e.generation k ≠ top := by
        intro h
        subst h
        exact hk rfl
      exact (List.mem_erase_of_ne hne).2 (hcov e hf1)

theorem KVStorage.run_covers {s : KVStorage} {k : String} (ops : List (Nat × KVStorage.Op))
    (hwf : KVStorage.WF s) (hops : ∀ p ∈ ops, KVStorage.Op.sets k p.2 = false)
    (hcov : ∀ e, KVStorage.map_find s.map_ k = some e →
      KVStorage.HeapItem.mk e.expired_at e.generation k ∈ s.min_heap_) :
    ∀ e, KVStorage.map_find (KVStorage.run s ops).map_ k = some e →
      KVStorage.HeapItem.mk e.expired_at e.generation k ∈ (KVStorage.run s ops).min_heap_ := by
  induction ops generalizing s with
  | nil => exact hcov
  | cons p ops ih =>
    obtain ⟨now, op⟩ := p
    exact ih (KVStorage.WF_step now op hwf) (fun q hq => hops q (List.mem_cons_of_mem _ hq))
      (KVStorage.step_covers now op hwf (hops (now, op) (List.mem_cons_self _ _)) hcov)

theorem KVStorage.step_generation_of {s : KVStorage} {k : String} (now : Nat)
    (op : KVStorage.Op) (hwf : KVStorage.WF s) (hop : KVStorage.Op.sets k op = false)
    (hkeep : k ∈ KVStorage.keys s → k ∈ KVStorage.keys (KVStorage.step s now op)) :
    KVStorage.generation_of (KVStorage.step s now op) k = KVStorage.generation_of s k := by
  have hgone : ∀ s1 : KVStorage, KVStorage.map_find s1.map_ k = none →
      (k ∈ KVStorage.keys s → k ∈ KVStorage.keys s1) →
      KVStorage.map_find s1.map_ k = KVStorage.map_find s.map_ k := by
    intro s1 hnone hk
    rw [hnone]
    symm
    rw [KVStorage.map_find_eq_none_iff]
    intro hin
    exact (KVStorage.map_find_eq_none_iff _ _).1 hnone (hk hin)
  apply KVStorage.generation_of_congr
  cases op with
  | set key value ttl =>
    have hne : k ≠ key := by
      intro h
      simp [KVStorage.Op.sets, h] at hop
    exact KVStorage.set_map_find_ne _ _ _ _ _ hne
  | remove key =>
    by_cases hk : k = key
    · subst hk
      exact hgone _ (KVStorage.remove_map_find_self k hwf) hkeep
    · exact KVStorage.remove_map_find_ne _ _ hk
  | get key => rfl
  | getManySorted key count => rfl
  | removeOneExpiredEntry =>
    show KVStorage.map_find (KVStorage.removeOneExpiredEntry s now).1.map_ k = _
    have hspec := KVStorage.removeOneExpiredEntry_spec s now
    cases hr : (KVStorage.removeOneExpiredEntry s now).2 with
    | none => rw [(hspec.1 hr).1]
    | some kv =>
      obtain ⟨k1, v1⟩ := kv
      obtain ⟨e, _, _, _, _, hmap, _⟩ := hspec.2 k1 v1 hr
      by_cases hk : k = k1
      · subst hk
        apply hgone _ _ hkeep
        show KVStorage.map_find (KVStorage.removeOneExpiredEntry s now).1.map_ k = none
        rw [hmap]
        exact KVStorage.map_find_erase_self k hwf.nodup
      · rw [hmap]
        exact KVStorage.map_find_erase_ne _ hk

theorem KVStorage.assigned_increasing (k : String) :
    ∀ (ops : List (Nat × KVStorage.Op)) (s : KVStorage), KVStorage.WF s →
      KVStorage.survives k s ops = true →
      KVStorage.generation_of s k + ops.length < 2 ^ 64 →
      (KVStorage.assigned k s ops).Pairwise (fun a b => a < b) ∧
      ∀ g ∈ KVStorage.assigned k s ops, KVStorage.generation_of s k < g := by
  intro ops
  induction ops with
  | nil =>
    intro s _ _ _
    exact ⟨List.Pairwise.nil, fun g hg => absurd hg (List.not_mem_nil g)⟩
  | cons p ops ih =>
    intro s hwf hsurv hbound
    obtain ⟨now, op⟩ := p
    simp only [KVStorage.survives, Bool.and_eq_true, Bool.or_eq_true, Bool.not_eq_true',
      decide_eq_true_eq, decide_eq_false_iff_not] at hsurv
    obtain ⟨hkeep0, hrest⟩ := hsurv
    have hkeep : k ∈ KVStorage.keys s → k ∈ KVStorage.keys (KVStorage.step s now op) := by
      intro hin
      rcases hkeep0 with h | h
      · exact absurd hin h
      · exact h
    rw [List.length_cons] at hbound
    have hwf1 := KVStorage.WF_step now op hwf
    by_cases hop : KVStorage.Op.sets k op = true
    · have hgen : KVStorage.generation_of (KVStorage.step s now op) k =
          KVStorage.generation_of s k + 1 := by
        cases op with
        | set key value ttl =>
          have hk : key = k := by simpa [KVStorage.Op.sets] using hop
          subst hk
          show KVStorage.generation_of (KVStorage.set s now key value ttl) key = _
          rw [KVStorage.generation_of_set_self]
          exact Nat.mod_eq_of_lt (by omega)
        | remove key => simp [KVStorage.Op.sets] at hop
        | get key => simp [KVStorage.Op.sets] at hop
        | getManySorted key count => simp [KVStorage.Op.sets] at hop
        | removeOneExpiredEntry => simp [KVStorage.Op.sets] at hop
      obtain ⟨h1, h2⟩ := ih (KVStorage.step s now op) hwf1 hrest (by omega)
      simp only [KVStorage.assigned, hop, if_true]
      refine ⟨List.pairwise_cons.2 ⟨fun g hg => ?_, h1⟩, ?_⟩
      · exact h2 g hg
      · intro g hg
        rcases List.mem_cons.1 hg with rfl | hg
        · omega
        · have := h2 g hg
          omega
    · have hop1 : KVStorage.Op.sets k op = false := by simpa using hop
      have hgen := KVStorage.step_generation_of now op hwf hop1 hkeep
      obtain ⟨h1, h2⟩ := ih (KVStorage.step s now op) hwf1 hrest (by omega)
      simp only [KVStorage.assigned, hop1]
      refine ⟨h1, ?_⟩
      intro g hg
      have := h2 g hg
      omega

/-! ## The claims -/

/-- C1, as stated, fails where `T + t` reaches the top of the 64-bit range. A `set` with
`t = 1` at clock reading `2 ^ 64 - 1` stores the wrapped expiration `0`, so `get` at the same
reading, which is below `T + t`, returns absent. A `set` with `t = 1` at `2 ^ 64 - 2` stores
the sentinel as expiration, so `get` at `2 ^ 64 - 1 = T + t` still returns the value. -/
theorem KVStorage.C1_counterexample :
    (¬ ∀ (s : KVStorage) (k v : String) (T t now : Nat),
        T < 2 ^ 64 → 1 ≤ t → t ≤ 2 ^ 32 - 1 → now < 2 ^ 64 → now < T + t →
        KVStorage.get (KVStorage.set s T k v t) now k = some v) ∧
    (¬ ∀ (s : KVStorage) (k v : String) (T t now : Nat),
        T < 2 ^ 64 → 1 ≤ t → t ≤ 2 ^ 32 - 1 → now < 2 ^ 64 → T + t ≤ now →
        KVStorage.get (KVStorage.set s T k v t) now k = none) := by
  constructor
  · intro h
    have h1 := h KVStorage.empty "k" "v" (2 ^ 64 - 1) 1 (2 ^ 64 - 1)
      (by decide) (by decide) (by decide) (by decide) (by decide)
    revert h1
    decide
  · intro h
    have h1 := h KVStorage.empty "k" "v" (2 ^ 64 - 2) 1 (2 ^ 64 - 1)
      (by decide) (by decide) (by decide) (by decide) (by decide)
    revert h1
    decide

/-- C1, amended: for every store state, key `k`, value `v`, clock reading `T` and ttl
`t ≥ 1` with `T + t < 2 ^ 64 - 1` (the expiration neither wraps nor equals the sentinel),
after `set(k, v, t)` at `T` the call `get(k)` at `now` returns `v` for every `now < T + t` and
absent for every `now ≥ T + t`. -/
theorem KVStorage.C1_get_after_set_ttl (s : KVStorage) (k v : String) (T t now : Nat)
    (ht : 1 ≤ t) (hT : T + t < 2 ^ 64 - 1) :
    (now < T + t → KVStorage.get (KVStorage.set s T k v t) now k = some v) ∧
    (T + t ≤ now → KVStorage.get (KVStorage.set s T k v t) now k = none) := by
  obtain ⟨g, hg⟩ := KVStorage.set_map_find_self s T k v t
  have ht0 : ¬ t = 0 := by omega
  have hmod : (T + t) % 2 ^ 64 = T + t := Nat.mod_eq_of_lt (by omega)
  simp only [if_neg ht0, hmod] at hg
  constructor
  · intro hlt
    rw [KVStorage.get_eq_some_iff]
    refine ⟨_, hg, ?_, rfl⟩
    simp only [KVStorage.is_expired, Bool.and_eq_false_iff, decide_eq_false_iff_not]
    right
    omega
  · intro hle
    have hx : KVStorage.is_expired (KVStorage.Entry.mk v (T + t) g) now = true := by
      rw [KVStorage.is_expired_iff]
      exact ⟨by simp only [KVStorage.k_infinite]; omega, hle⟩
    simp [KVStorage.get, hg, hx]

/-- C1, amended, at `set("x", "v", 2)` on the empty store at clock reading `0`. -/
theorem KVStorage.C1_get_after_set_ttl_witness :
    (1 ≤ 2 ∧ 0 + 2 < 2 ^ 64 - 1) ∧
    (1 < 0 + 2 → KVStorage.get (KVStorage.set KVStorage.empty 0 "x" "v" 2) 1 "x" = some "v") ∧
    (0 + 2 ≤ 1 → KVStorage.get (KVStorage.set KVStorage.empty 0 "x" "v" 2) 1 "x" = none) :=
  ⟨⟨by decide, by decide⟩,
    KVStorage.C1_get_after_set_ttl KVStorage.empty "x" "v" 0 2 1 (by decide) (by decide)⟩

/-- C2, as stated, fails at the last clock reading: a `set` with ttl `1` at `2 ^ 64 - 2`
queues an entry whose expiration equals the sentinel; after `remove` the generation restarts
at `1`, so `set(k, v, 0)` produces a record that this old entry matches, and
`removeOneExpiredEntry()` at `2 ^ 64 - 1` evicts the never-expiring record. -/
theorem KVStorage.C2_counterexample :
    ¬ (∀ (s : KVStorage) (k v : String) (T : Nat) (ops : List (Nat × KVStorage.Op)) (now : Nat),
        KVStorage.Reachable s → T < 2 ^ 64 → now < 2 ^ 64 →
        (T :: (ops.map Prod.fst ++ [now])).Pairwise (fun a b => a ≤ b) →
        (∀ p ∈ ops, p.1 < 2 ^ 64 ∧ KVStorage.Op.writes k p.2 = false) →
        KVStorage.get (KVStorage.run (KVStorage.set s T k v 0) ops) now k = some v) := by
  intro h
  have h1 := h
    (KVStorage.run (KVStorage.ctor [] 0)
      [(2 ^ 64 - 2, KVStorage.Op.set "k" "old" 1), (2 ^ 64 - 2, KVStorage.Op.remove "k")])
    "k" "v" (2 ^ 64 - 2) [(2 ^ 64 - 1, KVStorage.Op.removeOneExpiredEntry)] (2 ^ 64 - 1)
    (KVStorage.reachable_run _ (KVStorage.Reachable.ctor [] 0)) (by decide) (by decide)
    (by decide) (by decide)
  revert h1
  decide

/-- C2, amended: for every store state, key `k` and value `v`, after `set(k, v, 0)` the call
`get(k)` returns `v` at every clock reading, after every sequence of operations that contains
no `set(k, ...)` and no `remove(k)` and whose `removeOneExpiredEntry()` calls are all made at
clock readings below `2 ^ 64 - 1`. -/
theorem KVStorage.C2_get_after_set_forever (s : KVStorage) (k v : String) (T : Nat)
    (ops : List (Nat × KVStorage.Op)) (now : Nat)
    (hops : ∀ p ∈ ops, KVStorage.Op.writes k p.2 = false ∧
      (KVStorage.Op.evicts p.2 = true → p.1 < KVStorage.k_infinite)) :
    KVStorage.get (KVStorage.run (KVStorage.set s T k v 0) ops) now k = some v := by
  obtain ⟨g, hg⟩ := KVStorage.set_map_find_self s T k v 0
  simp only [if_true] at hg
  have hrun := KVStorage.run_keeps ops hg (fun p hp =>
    ⟨(hops p hp).1, fun he => Nat.not_le_of_lt ((hops p hp).2 he)⟩)
  rw [KVStorage.get_eq_some_iff]
  exact ⟨_, hrun, by simp [KVStorage.is_expired], rfl⟩

/-- C2, amended, on a store with an older queue entry for the key that is popped later. -/
theorem KVStorage.C2_get_after_set_forever_witness :
    (∀ p ∈ [((5 : Nat), KVStorage.Op.removeOneExpiredEntry), (6, KVStorage.Op.set "b" "w" 1)],
      KVStorage.Op.writes "a" p.2 = false ∧
      (KVStorage.Op.evicts p.2 = true → p.1 < KVStorage.k_infinite)) ∧
    KVStorage.get (KVStorage.run (KVStorage.set (KVStorage.ctor [("a", "u", 1)] 0) 0 "a" "v" 0)
      [(5, KVStorage.Op.removeOneExpiredEntry), (6, KVStorage.Op.set "b" "w" 1)]) 9 "a"
      = some "v" :=
  ⟨by decide, KVStorage.C2_get_after_set_forever _ "a" "v" 0 _ 9 (by decide)⟩

/-- C3: in every reachable store state, for every start key `s0`, count `n` and clock reading
`now`, the result of `getManySorted(s0, n)` has length at most `n` (it is empty for `n = 0`),
its keys are strictly ascending, every key is strictly above `s0`, and every returned pair
`(k, v)` satisfies `get(k) = v` at the same `now`. -/
theorem KVStorage.C3_getManySorted_sound (s : KVStorage) (now : Nat) (s0 : String) (n : Nat)
    (hr : KVStorage.Reachable s) :
    (KVStorage.getManySorted s now s0 n).length ≤ n ∧
    (n = 0 → KVStorage.getManySorted s now s0 n = []) ∧
    ((KVStorage.getManySorted s now s0 n).map Prod.fst).Pairwise (fun a b => a < b) ∧
    (∀ p ∈ KVStorage.getManySorted s now s0 n, s0 < p.1) ∧
    (∀ p ∈ KVStorage.getManySorted s now s0 n, KVStorage.get s now p.1 = some p.2) := by
  have hwf := KVStorage.WF_of_reachable hr
  have hmem : ∀ p ∈ KVStorage.getManySorted s now s0 n,
      p.1 ∈ KVStorage.sorted_upper_bound s.sorted_ s0 ∧ KVStorage.get s now p.1 = some p.2 := by
    intro p hp
    rw [KVStorage.getManySorted_eq] at hp
    exact (KVStorage.mem_filterMap_get s now _ p).1 (List.mem_of_mem_take hp)
  refine ⟨?_, ?_, ?_, ?_, fun p hp => (hmem p hp).2⟩
  · rw [KVStorage.getManySorted_eq]
    exact List.length_take_le _ _
  · intro h0
    rw [KVStorage.getManySorted_eq, h0, List.take_zero]
  · rw [KVStorage.getManySorted_eq, List.map_take, KVStorage.filterMap_get_keys]
    have h1 : (KVStorage.sorted_upper_bound s.sorted_ s0).Pairwise (fun a b => a < b) :=
      hwf.sorted.sublist (List.dropWhile_sublist _)
    exact (h1.sublist (List.filter_sublist _)).sublist (List.take_sublist _ _)
  · intro p hp
    have h1 := (hmem p hp).1
    rw [KVStorage.sorted_upper_bound_eq_filter s0 hwf.sorted, List.mem_filter] at h1
    exact (KVStorage.less_iff _ _).1 h1.2

/-- C3 on the store of the `SortedRange` test. -/
theorem KVStorage.C3_getManySorted_sound_witness :
    KVStorage.Reachable
      (KVStorage.ctor [("a", "va", 0), ("b", "vb", 0), ("d", "vd", 0), ("e", "ve", 0)] 0) ∧
    (KVStorage.getManySorted
      (KVStorage.ctor [("a", "va", 0), ("b", "vb", 0), ("d", "vd", 0), ("e", "ve", 0)] 0)
      0 "c" 2).length ≤ 2 :=
  ⟨KVStorage.Reachable.ctor _ 0,
    (KVStorage.C3_getManySorted_sound _ 0 "c" 2 (KVStorage.Reachable.ctor _ 0)).1⟩

/-- C5: in every reachable store state, `remove(k)` returns true if and only if `k` is in the
primary map before the call; after the call `k` is in neither the primary map nor the order
index, `get(k)` returns absent and a second `remove(k)` returns false; for a key that is not
in the primary map the call returns false and leaves the store as it is. -/
theorem KVStorage.C5_remove (s : KVStorage) (k : String) (now : Nat)
    (hr : KVStorage.Reachable s) :
    ((KVStorage.remove s k).2 = true ↔ k ∈ KVStorage.keys s) ∧
    k ∉ KVStorage.keys (KVStorage.remove s k).1 ∧
    k ∉ (KVStorage.remove s k).1.sorted_ ∧
    KVStorage.get (KVStorage.remove s k).1 now k = none ∧
    (KVStorage.remove (KVStorage.remove s k).1 k).2 = false ∧
    (k ∉ KVStorage.keys s → KVStorage.remove s k = (s, false)) := by
  have hwf := KVStorage.WF_of_reachable hr
  have hwf1 := KVStorage.WF_remove k hwf
  have hnone := KVStorage.remove_map_find_self k hwf
  have hnot : k ∉ KVStorage.keys (KVStorage.remove s k).1 :=
    (KVStorage.map_find_eq_none_iff _ _).1 hnone
  refine ⟨?_, hnot, ?_, ?_, ?_, ?_⟩
  · unfold KVStorage.remove
    cases h : KVStorage.map_find s.map_ k with
    | none =>
      have : k ∉ KVStorage.keys s := (KVStorage.map_find_eq_none_iff _ _).1 h
      simp [this]
    | some e =>
      have : k ∈ KVStorage.keys s := by
        show k ∈ s.map_.map Prod.fst
        rw [← KVStorage.map_find_isSome_iff, h]
        rfl
      simp [this]
  · rw [hwf1.same_keys]
    exact hnot
  · simp [KVStorage.get, hnone]
  · rw [show KVStorage.remove (KVStorage.remove s k).1 k = ((KVStorage.remove s k).1, false) by
      rw [KVStorage.remove, hnone]]
  · intro h
    have h1 : KVStorage.map_find s.map_ k = none := (KVStorage.map_find_eq_none_iff _ _).2 h
    rw [KVStorage.remove, h1]

/-- C5 on the store of the `RemoveAndExpiredPop` test and the key `k3`. -/
theorem KVStorage.C5_remove_witness :
    KVStorage.Reachable (KVStorage.ctor [("k1", "v1", 1), ("k2", "v2", 1), ("k3", "v3", 0)] 0) ∧
    KVStorage.get (KVStorage.remove
      (KVStorage.ctor [("k1", "v1", 1), ("k2", "v2", 1), ("k3", "v3", 0)] 0) "k3").1 0 "k3"
      = none :=
  ⟨KVStorage.Reachable.ctor _ 0,
    (KVStorage.C5_remove _ "k3" 0 (KVStorage.Reachable.ctor _ 0)).2.2.2.1⟩

/-- C6, as stated, fails at the last clock reading: after `set` with ttl `1` at `2 ^ 64 - 2`
and `remove`, the queue keeps an entry with the sentinel as expiration and generation `1`;
`set(k, v, 0)` then writes a never-expiring record that this entry matches, and
`removeOneExpiredEntry()` at `2 ^ 64 - 1` returns `(k, v)` although the record is not expired
in the sense of `is_expired`. -/
theorem KVStorage.C6_counterexample :
    ¬ (∀ (s : KVStorage) (now : Nat) (k v : String),
        KVStorage.Reachable s → now < 2 ^ 64 →
        (KVStorage.removeOneExpiredEntry s now).2 = some (k, v) →
        ∃ e, KVStorage.map_find s.map_ k = some e ∧ e.value_ = v ∧ e.expired_at ≤ now ∧
          KVStorage.is_expired e now = true) := by
  intro h
  obtain ⟨e, hf, _, _, hx⟩ := h
    (KVStorage.run (KVStorage.ctor [] 0)
      [(2 ^ 64 - 2, KVStorage.Op.set "k" "old" 1), (2 ^ 64 - 2, KVStorage.Op.remove "k"),
       (2 ^ 64 - 2, KVStorage.Op.set "k" "v" 0)])
    (2 ^ 64 - 1) "k" "v"
    (KVStorage.reachable_run _ (KVStorage.Reachable.ctor [] 0)) (by decide) (by decide)
  have hrec : KVStorage.map_find
      (KVStorage.run (KVStorage.ctor [] 0)
        [(2 ^ 64 - 2, KVStorage.Op.set "k" "old" 1), (2 ^ 64 - 2, KVStorage.Op.remove "k"),
         (2 ^ 64 - 2, KVStorage.Op.set "k" "v" 0)]).map_ "k" =
      some (KVStorage.Entry.mk "v" KVStorage.k_infinite 1) := by decide
  rw [hrec] at hf
  cases hf
  revert hx
  decide

/-- C6, amended: in every reachable store state, if `removeOneExpiredEntry()` at `now` returns
`(k, v)`, then before the call the primary map held a record for `k` with value `v` and an
expiration at most `now`, matched in generation and expiration by a queue entry (a
still-current record), and this record is expired in the sense of `is_expired` whenever `now`
is below `2 ^ 64 - 1`; after the call `k` is in neither the primary map nor the order index,
the record of every other key is unchanged, and the primary map has exactly one record
less. -/
theorem KVStorage.C6_removeOneExpiredEntry_result (s : KVStorage) (now : Nat) (k v : String)
    (hr : KVStorage.Reachable s)
    (hres : (KVStorage.removeOneExpiredEntry s now).2 = some (k, v)) :
    (∃ e, KVStorage.map_find s.map_ k = some e ∧ e.value_ = v ∧ e.expired_at ≤ now ∧
      KVStorage.HeapItem.mk e.expired_at e.generation k ∈ s.min_heap_ ∧
      (now < KVStorage.k_infinite → KVStorage.is_expired e now = true)) ∧
    k ∉ KVStorage.keys (KVStorage.removeOneExpiredEntry s now).1 ∧
    k ∉ (KVStorage.removeOneExpiredEntry s now).1.sorted_ ∧
    (∀ k1, k1 ≠ k → KVStorage.map_find (KVStorage.removeOneExpiredEntry s now).1.map_ k1 =
      KVStorage.map_find s.map_ k1) ∧
    (KVStorage.removeOneExpiredEntry s now).1.map_.length + 1 = s.map_.length := by
  have hwf := KVStorage.WF_of_reachable hr
  have hwf1 := KVStorage.WF_removeOneExpiredEntry s now hwf
  obtain ⟨e, hf, hv, hle, hq, hmap, _⟩ := (KVStorage.removeOneExpiredEntry_spec s now).2 k v hres
  have hnot : k ∉ KVStorage.keys (KVStorage.removeOneExpiredEntry s now).1 := by
    show k ∉ (KVStorage.removeOneExpiredEntry s now).1.map_.map Prod.fst
    rw [← KVStorage.map_find_eq_none_iff, hmap]
    exact KVStorage.map_find_erase_self k hwf.nodup
  refine ⟨⟨e, hf, hv, hle, hq, fun h => KVStorage.is_expired_of_le h hle⟩, hnot, ?_, ?_, ?_⟩
  · rw [hwf1.same_keys]
    exact hnot
  · intro k1 hk1
    rw [hmap]
    exact KVStorage.map_find_erase_ne _ hk1
  · rw [hmap]
    have := (KVStorage.map_erase_perm hf).length_eq
    rw [List.length_cons] at this
    exact this.symm

/-- C6 on a store with one record that is due at clock reading `2` and one that is not. -/
theorem KVStorage.C6_removeOneExpiredEntry_result_witness :
    (KVStorage.Reachable (KVStorage.ctor [("k1", "v1", 1), ("k2", "v2", 5)] 0) ∧
      (KVStorage.removeOneExpiredEntry
        (KVStorage.ctor [("k1", "v1", 1), ("k2", "v2", 5)] 0) 2).2 = some ("k1", "v1")) ∧
    "k1" ∉ (KVStorage.removeOneExpiredEntry
      (KVStorage.ctor [("k1", "v1", 1), ("k2", "v2", 5)] 0) 2).1.sorted_ :=
  ⟨⟨KVStorage.Reachable.ctor _ 0, by decide⟩,
    (KVStorage.C6_removeOneExpiredEntry_result _ 2 "k1" "v1" (KVStorage.Reachable.ctor _ 0)
      (by decide)).2.2.1⟩

/-- C7, as stated, fails at the last clock reading: the record set with ttl `1` at
`2 ^ 64 - 2` carries the sentinel as expiration, so at `2 ^ 64 - 1` no record is expired
(`m = 0`), yet the first `removeOneExpiredEntry()` call returns that record. -/
theorem KVStorage.C7_counterexample :
    ¬ (∀ (s : KVStorage) (now m : Nat), KVStorage.Reachable s → now < 2 ^ 64 →
        (KVStorage.expiredRecords s now).length = m →
        ∃ out : List (String × String),
          (KVStorage.drain (List.replicate m now) s).2 = out.map some ∧
          out.Perm ((KVStorage.expiredRecords s now).map (fun p => (p.1, p.2.value_))) ∧
          (out.map Prod.fst).Nodup ∧
          (KVStorage.removeOneExpiredEntry
            (KVStorage.drain (List.replicate m now) s).1 now).2 = none) := by
  intro h
  obtain ⟨out, _, _, _, h4⟩ := h (KVStorage.ctor [("k", "v", 1)] (2 ^ 64 - 2)) (2 ^ 64 - 1) 0
    (KVStorage.Reachable.ctor _ _) (by decide) (by decide)
  revert h4
  decide

/-- C7, amended: in every reachable store state and at every clock reading `now` below
`2 ^ 64 - 1`, if the primary map holds exactly `m` records that are expired at `now`, then
`m` successive `removeOneExpiredEntry()` calls at `now` each return a present result, the
returned pairs are, up to order, the `(key, value)` pairs of those `m` records, with pairwise
distinct keys, and the next call returns absent; and a call returns absent only when no
record of the primary map is expired. -/
theorem KVStorage.C7_drain (s : KVStorage) (now m : Nat) (hr : KVStorage.Reachable s)
    (hnow : now < KVStorage.k_infinite)
    (hm : (KVStorage.expiredRecords s now).length = m) :
    (∃ out : List (String × String),
      (KVStorage.drain (List.replicate m now) s).2 = out.map some ∧
      out.Perm ((KVStorage.expiredRecords s now).map (fun p => (p.1, p.2.value_))) ∧
      (out.map Prod.fst).Nodup ∧
      (KVStorage.removeOneExpiredEntry
        (KVStorage.drain (List.replicate m now) s).1 now).2 = none) ∧
    ((KVStorage.removeOneExpiredEntry s now).2 = none → KVStorage.expiredRecords s now = []) := by
  have hwf := KVStorage.WF_of_reachable hr
  constructor
  · obtain ⟨out, h1, h2, h3⟩ := KVStorage.drain_expired now hnow m s hwf hm
    refine ⟨out, h1, h2, ?_, KVStorage.removeOneExpiredEntry_none_of_no_expired hnow h3⟩
    rw [(h2.map Prod.fst).nodup_iff, List.map_map]
    have hfst : (Prod.fst ∘ fun p : String × KVStorage.Entry => (p.1, p.2.value_)) = Prod.fst := by
      funext p
      rfl
    rw [hfst]
    exact hwf.nodup.sublist ((List.filter_sublist _).map _)
  · intro hnone
    cases hl : KVStorage.expiredRecords s now with
    | nil => rfl
    | cons p l =>
      have hp : p ∈ KVStorage.expiredRecords s now := by rw [hl]; exact List.mem_cons_self _ _
      have hp2 := List.mem_filter.1 hp
      exact absurd hnone (KVStorage.removeOneExpiredEntry_some_of_expired s now hwf
        ⟨p.1, p.2, KVStorage.map_find_of_mem hwf.nodup hp2.1, hp2.2⟩)

/-- C7, amended, on the store of the `RemoveAndExpiredPop` test at clock reading `2`, where
two records are expired. -/
theorem KVStorage.C7_drain_witness :
    (KVStorage.Reachable (KVStorage.ctor [("k1", "v1", 1), ("k2", "v2", 1), ("k3", "v3", 0)] 0) ∧
      2 < KVStorage.k_infinite ∧
      (KVStorage.expiredRecords
        (KVStorage.ctor [("k1", "v1", 1), ("k2", "v2", 1), ("k3", "v3", 0)] 0) 2).length = 2) ∧
    ∃ out : List (String × String),
      (KVStorage.drain (List.replicate 2 2)
        (KVStorage.ctor [("k1", "v1", 1), ("k2", "v2", 1), ("k3", "v3", 0)] 0)).2
        = out.map some ∧
      out.Perm ((KVStorage.expiredRecords
        (KVStorage.ctor [("k1", "v1", 1), ("k2", "v2", 1), ("k3", "v3", 0)] 0) 2).map
        (fun p => (p.1, p.2.value_))) ∧
      (out.map Prod.fst).Nodup ∧
      (KVStorage.removeOneExpiredEntry (KVStorage.drain (List.replicate 2 2)
        (KVStorage.ctor [("k1", "v1", 1), ("k2", "v2", 1), ("k3", "v3", 0)] 0)).1 2).2 = none :=
  ⟨⟨KVStorage.Reachable.ctor _ 0, by decide, by decide⟩,
    (KVStorage.C7_drain _ 2 2 (KVStorage.Reachable.ctor _ 0) (by decide) (by decide)).1⟩

/-- C8, as stated, fails at the top of the 64-bit range, in two ways. With `t2 = 0`: an older
queue entry whose expiration equals the sentinel and whose generation equals that of the new
record makes `removeOneExpiredEntry()` at `2 ^ 64 - 1` return `k`. With `t2 > 0`: the new
expiration `T2 + t2` wraps around, so at a reading below `T2 + t2` the new record is evicted. -/
theorem KVStorage.C8_counterexample :
    (¬ ∀ (s : KVStorage) (k v1 v2 : String) (T1 t1 T2 t2 n now : Nat),
        KVStorage.Reachable s → T1 < 2 ^ 64 → T2 < 2 ^ 64 → now < 2 ^ 64 →
        t1 < 2 ^ 32 → t2 < 2 ^ 32 → 0 < t1 → T1 ≤ T2 → T2 < T1 + t1 → T2 ≤ now →
        t2 = 0 →
        (∀ kv, some kv ∈ (KVStorage.drain (List.replicate n now)
          (KVStorage.set (KVStorage.set s T1 k v1 t1) T2 k v2 t2)).2 → kv.1 ≠ k) ∧
        KVStorage.get (KVStorage.drain (List.replicate n now)
          (KVStorage.set (KVStorage.set s T1 k v1 t1) T2 k v2 t2)).1 now k = some v2) ∧
    (¬ ∀ (s : KVStorage) (k v1 v2 : String) (T1 t1 T2 t2 n now : Nat),
        KVStorage.Reachable s → T1 < 2 ^ 64 → T2 < 2 ^ 64 → now < 2 ^ 64 - 1 →
        t1 < 2 ^ 32 → t2 < 2 ^ 32 → 0 < t1 → T1 ≤ T2 → T2 < T1 + t1 → T2 ≤ now →
        now < T2 + t2 →
        (∀ kv, some kv ∈ (KVStorage.drain (List.replicate n now)
          (KVStorage.set (KVStorage.set s T1 k v1 t1) T2 k v2 t2)).2 → kv.1 ≠ k) ∧
        KVStorage.get (KVStorage.drain (List.replicate n now)
          (KVStorage.set (KVStorage.set s T1 k v1 t1) T2 k v2 t2)).1 now k = some v2) := by
  constructor
  · intro h
    have h1 := (h
      (KVStorage.run (KVStorage.ctor [] 0)
        [(2 ^ 64 - 2, KVStorage.Op.set "k" "a" 1), (2 ^ 64 - 2, KVStorage.Op.set "k" "b" 1),
         (2 ^ 64 - 2, KVStorage.Op.remove "k")])
      "k" "v1" "v2" (2 ^ 64 - 2) 1 (2 ^ 64 - 2) 0 1 (2 ^ 64 - 1)
      (KVStorage.reachable_run _ (KVStorage.Reachable.ctor [] 0))
      (by decide) (by decide) (by decide) (by decide) (by decide) (by decide) (by decide)
      (by decide) (by decide) (by decide)).2
    revert h1
    decide
  · intro h
    have h1 := (h (KVStorage.ctor [] 0)
      "k" "v1" "v2" (2 ^ 64 - 2) 1 (2 ^ 64 - 2) 2 1 (2 ^ 64 - 2)
      (KVStorage.Reachable.ctor [] 0)
      (by decide) (by decide) (by decide) (by decide) (by decide) (by decide) (by decide)
      (by decide) (by decide) (by decide)).2
    revert h1
    decide

/-- C8, amended: for every store state and key `k`, if `set(k, v1, t1)` with `t1 > 0` is
executed at `T1` and `set(k, v2, t2)` at `T2` with `T1 ≤ T2 < T1 + t1` and `T2 + t2 < 2 ^ 64`
(no wrap-around), then `removeOneExpiredEntry()` calls made at later clock readings below
`2 ^ 64 - 1` at which the new record is not expired (`t2 = 0`, or the reading is below
`T2 + t2`), in any number, never return `k`, and `get(k)` still returns `v2` afterwards at
every reading at which the new record is not expired. -/
theorem KVStorage.C8_overwrite_invalidation (s : KVStorage) (k v1 v2 : String)
    (T1 t1 T2 t2 : Nat) (nows : List Nat) (now : Nat)
    (_ht1 : 0 < t1) (_h12 : T1 ≤ T2) (_h21 : T2 < T1 + t1) (hwrap : T2 + t2 < 2 ^ 64)
    (hnows : ∀ n ∈ nows, T2 ≤ n ∧ n < KVStorage.k_infinite ∧ (t2 = 0 ∨ n < T2 + t2))
    (hnow : t2 = 0 ∨ now < T2 + t2) :
    (∀ kv, some kv ∈ (KVStorage.drain nows
      (KVStorage.set (KVStorage.set s T1 k v1 t1) T2 k v2 t2)).2 → kv.1 ≠ k) ∧
    KVStorage.get (KVStorage.drain nows
      (KVStorage.set (KVStorage.set s T1 k v1 t1) T2 k v2 t2)).1 now k = some v2 := by
  obtain ⟨g, hg⟩ := KVStorage.set_map_find_self (KVStorage.set s T1 k v1 t1) T2 k v2 t2
  have hmod : (T2 + t2) % 2 ^ 64 = T2 + t2 := Nat.mod_eq_of_lt hwrap
  rw [hmod] at hg
  have hlive : ∀ n, (t2 = 0 ∨ n < T2 + t2) → n < KVStorage.k_infinite ∨ t2 ≠ 0 →
      ¬ (if t2 = 0 then KVStorage.k_infinite else T2 + t2) ≤ n := by
    intro n h1 h2
    by_cases h0 : t2 = 0
    · rw [if_pos h0]
      rcases h2 with h2 | h2
      · omega
      · exact absurd h0 h2
    · rw [if_neg h0]
      rcases h1 with h1 | h1
      · exact absurd h1 h0
      · omega
  have hd := KVStorage.drain_keeps nows hg
    (fun n hn => hlive n (hnows n hn).2.2 (Or.inl (hnows n hn).2.1))
  refine ⟨hd.2, ?_⟩
  rw [KVStorage.get_eq_some_iff]
  refine ⟨_, hd.1, ?_, rfl⟩
  simp only [KVStorage.is_expired, Bool.and_eq_false_iff, decide_eq_false_iff_not,
    Decidable.not_not]
  by_cases h0 : t2 = 0
  · left
    rw [if_pos h0]
  · right
    rw [if_neg h0]
    rcases hnow with h1 | h1
    · exact absurd h1 h0
    · omega

/-- C8, amended, at `set("k", "v1", 2)` at `0`, `set("k", "v2", 5)` at `1` and two
`removeOneExpiredEntry()` calls at `3` and `4`, after the older queue entry has expired. -/
theorem KVStorage.C8_overwrite_invalidation_witness :
    (0 < 2 ∧ 0 ≤ 1 ∧ 1 < 0 + 2 ∧ 1 + 5 < 2 ^ 64 ∧
      (∀ n ∈ [3, 4], 1 ≤ n ∧ n < KVStorage.k_infinite ∧ (5 = 0 ∨ n < 1 + 5)) ∧
      (5 = 0 ∨ 4 < 1 + 5)) ∧
    (∀ kv, some kv ∈ (KVStorage.drain [3, 4]
      (KVStorage.set (KVStorage.set KVStorage.empty 0 "k" "v1" 2) 1 "k" "v2" 5)).2 →
        kv.1 ≠ "k") ∧
    KVStorage.get (KVStorage.drain [3, 4]
      (KVStorage.set (KVStorage.set KVStorage.empty 0 "k" "v1" 2) 1 "k" "v2" 5)).1 4 "k"
      = some "v2" :=
  ⟨⟨by decide, by decide, by decide, by decide, by decide, by decide⟩,
    KVStorage.C8_overwrite_invalidation KVStorage.empty "k" "v1" "v2" 0 2 1 5 [3, 4] 4
      (by decide) (by decide) (by decide) (by decide) (by decide) (by decide)⟩

/-- C9, as stated, fails at the last clock reading: the record set with ttl `1` at
`2 ^ 64 - 2` carries the sentinel as expiration, so `get` at `2 ^ 64 - 1` returns its value,
but `removeOneExpiredEntry()` at that reading evicts it and `get` then returns absent. -/
theorem KVStorage.C9_counterexample :
    ¬ (∀ (s : KVStorage) (now : Nat) (k s0 : String) (n : Nat),
        KVStorage.Reachable s → now < 2 ^ 64 →
        KVStorage.get (KVStorage.removeOneExpiredEntry s now).1 now k = KVStorage.get s now k ∧
        KVStorage.getManySorted (KVStorage.removeOneExpiredEntry s now).1 now s0 n =
          KVStorage.getManySorted s now s0 n) := by
  intro h
  have h1 := (h (KVStorage.ctor [("k", "v", 1)] (2 ^ 64 - 2)) (2 ^ 64 - 1) "k" "" 1
    (KVStorage.Reachable.ctor _ _) (by decide)).1
  revert h1
  decide

/-- C9, amended: in every reachable store state, at every clock reading `now` below
`2 ^ 64 - 1`, for every key `k`, start key `s0` and count `n`, the results of `get(k)` and of
`getManySorted(s0, n)` at `now` are the same before and after a `removeOneExpiredEntry()`
call made at the same `now`. -/
theorem KVStorage.C9_reads_ignore_eviction (s : KVStorage) (now : Nat) (k s0 : String) (n : Nat)
    (hr : KVStorage.Reachable s) (hnow : now < KVStorage.k_infinite) :
    KVStorage.get (KVStorage.removeOneExpiredEntry s now).1 now k = KVStorage.get s now k ∧
    KVStorage.getManySorted (KVStorage.removeOneExpiredEntry s now).1 now s0 n =
      KVStorage.getManySorted s now s0 n :=
  ⟨(KVStorage.reads_after_eviction (KVStorage.WF_of_reachable hr) hnow).1 k,
    (KVStorage.reads_after_eviction (KVStorage.WF_of_reachable hr) hnow).2 s0 n⟩

/-- C9, amended, on the store of the `RemoveAndExpiredPop` test at clock reading `2`. -/
theorem KVStorage.C9_reads_ignore_eviction_witness :
    (KVStorage.Reachable (KVStorage.ctor [("k1", "v1", 1), ("k2", "v2", 1), ("k3", "v3", 0)] 0) ∧
      2 < KVStorage.k_infinite) ∧
    KVStorage.get (KVStorage.removeOneExpiredEntry
      (KVStorage.ctor [("k1", "v1", 1), ("k2", "v2", 1), ("k3", "v3", 0)] 0) 2).1 2 "k2" =
      KVStorage.get (KVStorage.ctor [("k1", "v1", 1), ("k2", "v2", 1), ("k3", "v3", 0)] 0) 2 "k2" ∧
    KVStorage.getManySorted (KVStorage.removeOneExpiredEntry
      (KVStorage.ctor [("k1", "v1", 1), ("k2", "v2", 1), ("k3", "v3", 0)] 0) 2).1 2 "" 3 =
      KVStorage.getManySorted
        (KVStorage.ctor [("k1", "v1", 1), ("k2", "v2", 1), ("k3", "v3", 0)] 0) 2 "" 3 :=
  ⟨⟨KVStorage.Reachable.ctor _ 0, by decide⟩,
    KVStorage.C9_reads_ignore_eviction _ 2 "k2" "" 3 (KVStorage.Reachable.ctor _ 0) (by decide)⟩

/-- C10: in every state reachable from construction by `set`, `remove`, `get`,
`getManySorted` and `removeOneExpiredEntry` calls, the keys of the order index are exactly the
keys of the primary map (neither holds a key twice), and this still holds after one more call
of any of the operations. -/
theorem KVStorage.C10_index_keys (s : KVStorage) (hr : KVStorage.Reachable s) :
    (∀ k, k ∈ s.sorted_ ↔ k ∈ KVStorage.keys s) ∧
    s.sorted_.Nodup ∧ (KVStorage.keys s).Nodup ∧
    (∀ (now : Nat) (op : KVStorage.Op) (k : String),
      k ∈ (KVStorage.step s now op).sorted_ ↔ k ∈ KVStorage.keys (KVStorage.step s now op)) := by
  have hwf := KVStorage.WF_of_reachable hr
  refine ⟨hwf.same_keys, hwf.sorted.imp (fun h => ne_of_lt h), hwf.nodup, ?_⟩
  intro now op
  exact (KVStorage.WF_step now op hwf).same_keys

/-- C10 on the store of the `RemoveAndExpiredPop` test after `remove("k3")` and an eviction. -/
theorem KVStorage.C10_index_keys_witness :
    KVStorage.Reachable (KVStorage.run
      (KVStorage.ctor [("k1", "v1", 1), ("k2", "v2", 1), ("k3", "v3", 0)] 0)
      [(0, KVStorage.Op.remove "k3"), (2, KVStorage.Op.removeOneExpiredEntry)]) ∧
    ∀ k, k ∈ (KVStorage.run
      (KVStorage.ctor [("k1", "v1", 1), ("k2", "v2", 1), ("k3", "v3", 0)] 0)
      [(0, KVStorage.Op.remove "k3"), (2, KVStorage.Op.removeOneExpiredEntry)]).sorted_ ↔
      k ∈ KVStorage.keys (KVStorage.run
        (KVStorage.ctor [("k1", "v1", 1), ("k2", "v2", 1), ("k3", "v3", 0)] 0)
        [(0, KVStorage.Op.remove "k3"), (2, KVStorage.Op.removeOneExpiredEntry)]) :=
  ⟨KVStorage.reachable_run _ (KVStorage.Reachable.ctor _ 0),
    (KVStorage.C10_index_keys _ (KVStorage.reachable_run _ (KVStorage.Reachable.ctor _ 0))).1⟩

/-- C11, as stated, fails for its consequence on `get` where `now + ttl` wraps around: built
at clock reading `2 ^ 64 - 1` from `("a", "0", 0), ("a", "1", 1)`, the store holds for `a`
the wrapped expiration `0`, and `get("a")` at the construction reading returns absent. -/
theorem KVStorage.C11_counterexample :
    ¬ (∀ (entries : List (String × String × Nat)) (now : Nat) (k v : String) (t : Nat),
        now < 2 ^ 64 → (∀ e ∈ entries, e.2.2 < 2 ^ 32) →
        (entries.filter (fun e => decide (e.1 = k))).getLast? = some (k, v, t) →
        KVStorage.ctor entries now = KVStorage.setAll entries now ∧
        KVStorage.get (KVStorage.ctor entries now) now k = some v ∧
        KVStorage.generation_of (KVStorage.ctor entries now) k =
          (entries.filter (fun e => decide (e.1 = k))).length) := by
  intro h
  have h1 := (h [("a", "0", 0), ("a", "1", 1)] (2 ^ 64 - 1) "a" "1" 1
    (by decide) (by decide) (by decide)).2.1
  revert h1
  decide

/-- C11, amended: for every finite sequence of triples and clock reading `now`, the store
produced by the constructor equals the store obtained from the empty store by calling `set`
on each triple in sequence order at `now`; for a key `k` whose last occurrence is `(k, v, t)`
the record of `k` holds `v`, the expiration of that occurrence and, as generation, the number
of occurrences of `k` modulo `2 ^ 64` (the number itself for fewer than `2 ^ 64` triples);
`get(k)` returns `v` at every clock reading at which that record is not expired, in particular
at `now` when `t = 0` or `now + t < 2 ^ 64`. -/
theorem KVStorage.C11_ctor_as_sets (entries : List (String × String × Nat)) (now : Nat) :
    KVStorage.ctor entries now = KVStorage.setAll entries now ∧
    ∀ (k v : String) (t : Nat),
      (entries.filter (fun e => decide (e.1 = k))).getLast? = some (k, v, t) →
      KVStorage.map_find (KVStorage.ctor entries now).map_ k =
        some (KVStorage.Entry.mk v
          (if t = 0 then KVStorage.k_infinite else (now + t) % 2 ^ 64)
          ((entries.filter (fun e => decide (e.1 = k))).length % 2 ^ 64)) ∧
      (entries.length < 2 ^ 64 → KVStorage.generation_of (KVStorage.ctor entries now) k =
        (entries.filter (fun e => decide (e.1 = k))).length) ∧
      (∀ now1, KVStorage.is_expired (KVStorage.Entry.mk v
          (if t = 0 then KVStorage.k_infinite else (now + t) % 2 ^ 64)
          ((entries.filter (fun e => decide (e.1 = k))).length % 2 ^ 64)) now1 = false →
        KVStorage.get (KVStorage.ctor entries now) now1 k = some v) ∧
      (t = 0 ∨ now + t < 2 ^ 64 → KVStorage.get (KVStorage.ctor entries now) now k = some v) := by
  refine ⟨KVStorage.foldl_set_eq_run now entries KVStorage.empty, ?_⟩
  intro k v t hlast
  have hf := KVStorage.ctor_map_find entries now k v t hlast
  have hget : ∀ now1, KVStorage.is_expired (KVStorage.Entry.mk v
      (if t = 0 then KVStorage.k_infinite else (now + t) % 2 ^ 64)
      ((entries.filter (fun e => decide (e.1 = k))).length % 2 ^ 64)) now1 = false →
      KVStorage.get (KVStorage.ctor entries now) now1 k = some v := by
    intro now1 hx
    rw [KVStorage.get_eq_some_iff]
    exact ⟨_, hf, hx, rfl⟩
  refine ⟨hf, ?_, hget, ?_⟩
  · intro hlen
    rw [KVStorage.generation_of_ctor]
    apply Nat.mod_eq_of_lt
    exact Nat.lt_of_le_of_lt (List.length_filter_le _ _) hlen
  · intro ht
    apply hget
    simp only [KVStorage.is_expired, Bool.and_eq_false_iff, decide_eq_false_iff_not,
      Decidable.not_not]
    by_cases h0 : t = 0
    · left
      rw [if_pos h0]
    · right
      rw [if_neg h0]
      rcases ht with h1 | h1
      · exact absurd h1 h0
      · rw [Nat.mod_eq_of_lt h1]
        omega

/-- C11, amended, on the sequence `("a", "1", 0), ("b", "2", 0), ("a", "11", 0)` and the key
`a`, which occurs twice. -/
theorem KVStorage.C11_ctor_as_sets_witness :
    ([("a", "1", 0), ("b", "2", 0), ("a", "11", 0)].filter
        (fun e : String × String × Nat => decide (e.1 = "a"))).getLast? = some ("a", "11", 0) ∧
    KVStorage.map_find
      (KVStorage.ctor [("a", "1", 0), ("b", "2", 0), ("a", "11", 0)] 7).map_ "a" =
      some (KVStorage.Entry.mk "11"
        (if 0 = 0 then KVStorage.k_infinite else (7 + 0) % 2 ^ 64)
        (([("a", "1", 0), ("b", "2", 0), ("a", "11", 0)].filter
          (fun e : String × String × Nat => decide (e.1 = "a"))).length % 2 ^ 64)) :=
  ⟨by decide,
    ((KVStorage.C11_ctor_as_sets [("a", "1", 0), ("b", "2", 0), ("a", "11", 0)] 7).2
      "a" "11" 0 (by decide)).1⟩

/-- C12: for every store state and clock reading `now`, if `removeOneExpiredEntry()` returns
absent at `now`, then an immediately following call at the same `now` also returns absent
and leaves the primary map, the order index and the expiration queue as they are; and when
the queue is empty or its least expiration is greater than `now`, the call returns absent
without changing any structure. -/
theorem KVStorage.C12_idle_idempotent (s : KVStorage) (now : Nat) :
    ((KVStorage.removeOneExpiredEntry s now).2 = none →
      KVStorage.removeOneExpiredEntry (KVStorage.removeOneExpiredEntry s now).1 now =
        ((KVStorage.removeOneExpiredEntry s now).1, none)) ∧
    ((∀ x ∈ s.min_heap_, now < x.expired_at) →
      KVStorage.removeOneExpiredEntry s now = (s, none)) ∧
    (s.min_heap_ = [] → KVStorage.removeOneExpiredEntry s now = (s, none)) := by
  refine ⟨fun h => ?_, fun h => KVStorage.removeOneExpiredEntry_idle h, fun h => ?_⟩
  · exact KVStorage.removeOneExpiredEntry_idle
      (KVStorage.removeOneExpiredEntry_none_exit s now h)
  · apply KVStorage.removeOneExpiredEntry_idle
    intro x hx
    rw [h] at hx
    cases hx

/-- C12 on the store of the `RemoveAndExpiredPop` test once both expired records are
reclaimed: the third call at clock reading `2` returns absent, and so does a fourth. -/
theorem KVStorage.C12_idle_idempotent_witness :
    (KVStorage.removeOneExpiredEntry (KVStorage.drain [2, 2]
      (KVStorage.ctor [("k1", "v1", 1), ("k2", "v2", 1), ("k3", "v3", 0)] 0)).1 2).2 = none ∧
    KVStorage.removeOneExpiredEntry (KVStorage.removeOneExpiredEntry (KVStorage.drain [2, 2]
      (KVStorage.ctor [("k1", "v1", 1), ("k2", "v2", 1), ("k3", "v3", 0)] 0)).1 2).1 2 =
      ((KVStorage.removeOneExpiredEntry (KVStorage.drain [2, 2]
        (KVStorage.ctor [("k1", "v1", 1), ("k2", "v2", 1), ("k3", "v3", 0)] 0)).1 2).1, none) :=
  ⟨by decide, (KVStorage.C12_idle_idempotent _ 2).1 (by decide)⟩

/-- C13: `get` and `getManySorted` are pure reads: for every store state, argument and clock
reading, the store after the call is the store before it (primary map, order index and
expiration queue), also when the record looked up is expired: `get` then returns absent, the
record stays in the primary map, and a following `remove` of that key returns true. -/
theorem KVStorage.C13_pure_reads (s : KVStorage) (now : Nat) (k s0 : String) (n : Nat) :
    KVStorage.step s now (KVStorage.Op.get k) = s ∧
    KVStorage.step s now (KVStorage.Op.getManySorted s0 n) = s ∧
    (∀ e, KVStorage.map_find s.map_ k = some e → KVStorage.is_expired e now = true →
      KVStorage.get s now k = none ∧
      KVStorage.map_find (KVStorage.step s now (KVStorage.Op.get k)).map_ k = some e ∧
      (KVStorage.remove (KVStorage.step s now (KVStorage.Op.get k)) k).2 = true) := by
  refine ⟨rfl, rfl, ?_⟩
  intro e hf hx
  refine ⟨by simp [KVStorage.get, hf, hx], hf, ?_⟩
  show (KVStorage.remove s k).2 = true
  simp [KVStorage.remove, hf]

/-- C13 on the store of the `TTLExpire` test at clock reading `3`, where `x` is expired. -/
theorem KVStorage.C13_pure_reads_witness :
    KVStorage.get (KVStorage.ctor [("x", "v", 2)] 0) 3 "x" = none ∧
    KVStorage.map_find
      (KVStorage.step (KVStorage.ctor [("x", "v", 2)] 0) 3 (KVStorage.Op.get "x")).map_ "x" =
      some (KVStorage.Entry.mk "v" 2 1) ∧
    (KVStorage.remove
      (KVStorage.step (KVStorage.ctor [("x", "v", 2)] 0) 3 (KVStorage.Op.get "x")) "x").2 = true :=
  (KVStorage.C13_pure_reads (KVStorage.ctor [("x", "v", 2)] 0) 3 "x" "" 0).2.2
    (KVStorage.Entry.mk "v" 2 1) (by decide) (by decide)

/-- C14, as stated, fails where the 64-bit additions wrap around: `set` with ttl `1` at
clock reading `2 ^ 64 - 1` stores the expiration `0`, not `now + ttl`; and `set` on a record
whose generation is `2 ^ 64 - 1` stores the generation `0`, not the previous one plus `1`. -/
theorem KVStorage.C14_counterexample :
    (¬ ∀ (s : KVStorage) (k v : String) (ttl now : Nat),
        now < 2 ^ 64 → ttl < 2 ^ 32 → 0 < ttl →
        ∃ e, KVStorage.map_find (KVStorage.set s now k v ttl).map_ k = some e ∧
          e.expired_at = now + ttl) ∧
    (¬ ∀ (s : KVStorage) (k v : String) (ttl now : Nat) (old : KVStorage.Entry),
        now < 2 ^ 64 → ttl < 2 ^ 32 → old.generation < 2 ^ 64 →
        KVStorage.map_find s.map_ k = some old →
        ∃ e, KVStorage.map_find (KVStorage.set s now k v ttl).map_ k = some e ∧
          e.generation = old.generation + 1) := by
  constructor
  · intro h
    obtain ⟨e, h1, h2⟩ := h KVStorage.empty "k" "v" 1 (2 ^ 64 - 1)
      (by decide) (by decide) (by decide)
    rw [KVStorage.set_record] at h1
    cases h1
    revert h2
    decide
  · intro h
    obtain ⟨e, h1, h2⟩ := h
      (KVStorage.mk [("k", KVStorage.Entry.mk "u" KVStorage.k_infinite (2 ^ 64 - 1))] ["k"] [])
      "k" "v" 0 0 (KVStorage.Entry.mk "u" KVStorage.k_infinite (2 ^ 64 - 1))
      (by decide) (by decide) (by decide) (by decide)
    rw [KVStorage.set_record] at h1
    cases h1
    revert h2
    decide

/-- C14, amended: for every store state, key `k`, value `v`, ttl and clock reading `now`,
after `set(k, v, ttl)` the record of `k` has value `v`; its expiration is the sentinel if
`ttl = 0` and `now + ttl` modulo `2 ^ 64` otherwise, which is `now + ttl` whenever
`now + ttl < 2 ^ 64`; its generation is `1` if `k` was absent before the call and the
previous generation plus `1` modulo `2 ^ 64` if `k` was present, which is the previous
generation plus `1` whenever the previous generation is below `2 ^ 64 - 1`. -/
theorem KVStorage.C14_set_record (s : KVStorage) (k v : String) (ttl now : Nat) :
    ∃ e, KVStorage.map_find (KVStorage.set s now k v ttl).map_ k = some e ∧
      e.value_ = v ∧
      (ttl = 0 → e.expired_at = KVStorage.k_infinite) ∧
      (0 < ttl → e.expired_at = (now + ttl) % 2 ^ 64) ∧
      (0 < ttl → now + ttl < 2 ^ 64 → e.expired_at = now + ttl) ∧
      (KVStorage.map_find s.map_ k = none → e.generation = 1) ∧
      (∀ old, KVStorage.map_find s.map_ k = some old →
        e.generation = (old.generation + 1) % 2 ^ 64 ∧
        (old.generation < 2 ^ 64 - 1 → e.generation = old.generation + 1)) := by
  refine ⟨_, KVStorage.set_record s now k v ttl, rfl, ?_, ?_, ?_, ?_, ?_⟩
  · intro h
    simp [h]
  · intro h
    have h0 : ¬ ttl = 0 := by omega
    simp [h0]
  · intro h hlt
    have h0 : ¬ ttl = 0 := by omega
    simp only [if_neg h0]
    exact Nat.mod_eq_of_lt hlt
  · intro h
    simp [KVStorage.generation_of, h]
  · intro old h
    simp only [KVStorage.generation_of, h, true_and]
    intro hlt
    exact Nat.mod_eq_of_lt (by omega)

/-- C14, amended, at `set("a", "11", 5)` at clock reading `7` on a store that holds `a`. -/
theorem KVStorage.C14_set_record_witness :
    ∃ e, KVStorage.map_find
        (KVStorage.set (KVStorage.ctor [("a", "1", 0)] 0) 7 "a" "11" 5).map_ "a" = some e ∧
      e.value_ = "11" ∧ e.expired_at = 7 + 5 ∧ e.generation = 1 + 1 := by
  obtain ⟨e, h1, h2, _, _, h5, _, h7⟩ :=
    KVStorage.C14_set_record (KVStorage.ctor [("a", "1", 0)] 0) "a" "11" 5 7
  exact ⟨e, h1, h2, h5 (by decide) (by decide),
    (h7 (KVStorage.Entry.mk "1" KVStorage.k_infinite 1) (by decide)).2 (by decide)⟩

/-- C15, as stated, fails: `remove(k)` destroys the record with its counter, and the next
`set(k)` starts again at generation `1`. The calls `set`, `set`, `remove`, `set` of one key
assign the generations `1, 2, 1`. -/
theorem KVStorage.C15_counterexample :
    ¬ (∀ (s : KVStorage) (k : String) (ops : List (Nat × KVStorage.Op)),
        KVStorage.Reachable s → (∀ p ∈ ops, p.1 < 2 ^ 64) →
        (ops.map Prod.fst).Pairwise (fun a b => a ≤ b) →
        (KVStorage.assigned k s ops).Pairwise (fun a b => a < b)) := by
  intro h
  have h1 := h (KVStorage.ctor [] 0) "k"
    [(0, KVStorage.Op.set "k" "a" 0), (1, KVStorage.Op.set "k" "b" 0),
     (2, KVStorage.Op.remove "k"), (3, KVStorage.Op.set "k" "c" 0)]
    (KVStorage.Reachable.ctor [] 0) (by decide) (by decide)
  revert h1
  decide

/-- C15, amended: from every reachable store state, along every sequence of operations
during which the key `k`, once stored, is never taken out of the primary map (no `remove(k)`
of the stored key, no eviction of `k`) and which is short enough for the counter to stay
below `2 ^ 64`, the generation assigned to `k` by a `set` is strictly greater than the
generation assigned to `k` by every earlier `set` of `k` in that sequence, and strictly
greater than the generation `k` had before the sequence. -/
theorem KVStorage.C15_generation_increasing (s : KVStorage) (k : String)
    (ops : List (Nat × KVStorage.Op)) (hr : KVStorage.Reachable s)
    (hsurv : KVStorage.survives k s ops = true)
    (hbound : KVStorage.generation_of s k + ops.length < 2 ^ 64) :
    (KVStorage.assigned k s ops).Pairwise (fun a b => a < b) ∧
    ∀ g ∈ KVStorage.assigned k s ops, KVStorage.generation_of s k < g :=
  KVStorage.assigned_increasing k ops s (KVStorage.WF_of_reachable hr) hsurv hbound

/-- C15, amended, on three `set` calls of one key with a `set` of another key, a `remove` of
that other key and a `removeOneExpiredEntry()` call in between. -/
theorem KVStorage.C15_generation_increasing_witness :
    (KVStorage.Reachable (KVStorage.ctor [] 0) ∧
      KVStorage.survives "k" (KVStorage.ctor [] 0)
        [(0, KVStorage.Op.set "k" "a" 1), (1, KVStorage.Op.set "j" "x" 1),
         (1, KVStorage.Op.set "k" "b" 9), (2, KVStorage.Op.remove "j"),
         (3, KVStorage.Op.removeOneExpiredEntry), (4, KVStorage.Op.set "k" "c" 0)] = true ∧
      KVStorage.generation_of (KVStorage.ctor [] 0) "k" + 6 < 2 ^ 64) ∧
    (KVStorage.assigned "k" (KVStorage.ctor [] 0)
        [(0, KVStorage.Op.set "k" "a" 1), (1, KVStorage.Op.set "j" "x" 1),
         (1, KVStorage.Op.set "k" "b" 9), (2, KVStorage.Op.remove "j"),
         (3, KVStorage.Op.removeOneExpiredEntry), (4, KVStorage.Op.set "k" "c" 0)]).Pairwise
      (fun a b => a < b) :=
  ⟨⟨KVStorage.Reachable.ctor [] 0, by decide, by decide⟩,
    (KVStorage.C15_generation_increasing (KVStorage.ctor [] 0) "k" _
      (KVStorage.Reachable.ctor [] 0) (by decide) (by decide)).1⟩

/-- C16: for every store state, key `k`, value `v`, ttl and clock reading, `set(k, v, ttl)`
with `ttl > 0` puts exactly one new entry in the expiration queue, the triple (expiration,
generation, `k`) of the record of `k` as it stands after the call, and keeps every entry that
was queued before; `set(k, v, 0)` leaves the queue as it is. -/
theorem KVStorage.C16_set_queue (s : KVStorage) (k v : String) (ttl now : Nat) :
    (0 < ttl → ∃ e, KVStorage.map_find (KVStorage.set s now k v ttl).map_ k = some e ∧
      (KVStorage.set s now k v ttl).min_heap_ =
        KVStorage.HeapItem.mk e.expired_at e.generation k :: s.min_heap_ ∧
      (KVStorage.set s now k v ttl).min_heap_.length = s.min_heap_.length + 1 ∧
      (KVStorage.set s now k v ttl).min_heap_.Perm
        (KVStorage.HeapItem.mk e.expired_at e.generation k :: s.min_heap_)) ∧
    (ttl = 0 → (KVStorage.set s now k v ttl).min_heap_ = s.min_heap_) := by
  constructor
  · intro h
    have h0 : ¬ ttl = 0 := by omega
    have hheap := KVStorage.set_min_heap s now k v ttl
    rw [if_neg h0] at hheap
    refine ⟨_, KVStorage.set_record s now k v ttl, ?_, ?_, ?_⟩
    · rw [hheap]
      simp [h0]
    · rw [hheap]
      rfl
    · rw [hheap]
      simp [h0]
  · intro h
    rw [KVStorage.set_min_heap, if_pos h]

/-- C16 on an overwrite with a ttl: the older entry of the key stays queued. -/
theorem KVStorage.C16_set_queue_witness :
    (KVStorage.set (KVStorage.ctor [("a", "1", 3)] 0) 1 "a" "11" 5).min_heap_ =
      [KVStorage.HeapItem.mk 6 2 "a", KVStorage.HeapItem.mk 3 1 "a"] := by
  obtain ⟨e, h1, h2, _⟩ :=
    (KVStorage.C16_set_queue (KVStorage.ctor [("a", "1", 3)] 0) "a" "11" 5 1).1 (by decide)
  rw [h2]
  have he : e = KVStorage.Entry.mk "11" 6 2 := by
    have h3 : KVStorage.map_find
        (KVStorage.set (KVStorage.ctor [("a", "1", 3)] 0) 1 "a" "11" 5).map_ "a" =
        some (KVStorage.Entry.mk "11" 6 2) := by decide
    rw [h1] at h3
    exact Option.some.inj h3
  rw [he]
  decide

/-- C17: for every store state and clock reading `now`, when `removeOneExpiredEntry()`
returns absent, the primary map and the order index are those before the call, and the
expiration queue before the call consists of the queue after the call and of dropped
entries, each of which had an expiration at most `now` and was stale (key missing,
generation mismatch or expiration mismatch). -/
theorem KVStorage.C17_absent_drops_stale (s : KVStorage) (now : Nat)
    (h : (KVStorage.removeOneExpiredEntry s now).2 = none) :
    (KVStorage.removeOneExpiredEntry s now).1.map_ = s.map_ ∧
    (KVStorage.removeOneExpiredEntry s now).1.sorted_ = s.sorted_ ∧
    ∃ dropped : List KVStorage.HeapItem,
      s.min_heap_.Perm (dropped ++ (KVStorage.removeOneExpiredEntry s now).1.min_heap_) ∧
      ∀ t ∈ dropped, t.expired_at ≤ now ∧ KVStorage.is_stale s t = true := by
  obtain ⟨hm, hs⟩ := (KVStorage.removeOneExpiredEntry_spec s now).1 h
  obtain ⟨popped, hp, hdue, hstale⟩ := KVStorage.removeOneExpiredEntry_popped s now
  exact ⟨hm, hs, popped, hp, fun t ht => ⟨hdue t ht, hstale h t ht⟩⟩

/-- C17 on a store whose queue holds the entry of a removed key and an entry that is not yet
due: the call at clock reading `2` drops the former and returns absent. -/
theorem KVStorage.C17_absent_drops_stale_witness :
    (KVStorage.removeOneExpiredEntry
      (KVStorage.remove (KVStorage.ctor [("a", "1", 1), ("b", "2", 9)] 0) "a").1 2).2 = none ∧
    (KVStorage.removeOneExpiredEntry
      (KVStorage.remove (KVStorage.ctor [("a", "1", 1), ("b", "2", 9)] 0) "a").1 2).1.map_ =
      (KVStorage.remove (KVStorage.ctor [("a", "1", 1), ("b", "2", 9)] 0) "a").1.map_ :=
  ⟨by decide, (KVStorage.C17_absent_drops_stale _ 2 (by decide)).1⟩

/-- C18: `removeOneExpiredEntry()` terminates on every store state. With any fuel that
covers the queue length the loop gives the outcome of the call, and it stops at one of its
own exits: with a reclaimed entry, or with a queue that is empty or whose entries all expire
after `now`. Every iteration that continues pops exactly one entry, the entries popped in
one call are entries of the queue at entry, so at most as many as its size, and at most one
key leaves the primary map. -/
theorem KVStorage.C18_terminates (s : KVStorage) (now fuel : Nat)
    (hfuel : s.min_heap_.length ≤ fuel) :
    KVStorage.removeOneExpiredEntry_loop now fuel s = KVStorage.removeOneExpiredEntry s now ∧
    ((KVStorage.removeOneExpiredEntry s now).2 = none →
      ∀ x ∈ (KVStorage.removeOneExpiredEntry s now).1.min_heap_, now < x.expired_at) ∧
    (∀ (q : List KVStorage.HeapItem) (t : KVStorage.HeapItem),
      KVStorage.heap_top q = some t → (KVStorage.heap_pop q).length + 1 = q.length) ∧
    (∃ popped : List KVStorage.HeapItem,
      s.min_heap_.Perm (popped ++ (KVStorage.removeOneExpiredEntry s now).1.min_heap_) ∧
      popped.length ≤ s.min_heap_.length) ∧
    ((KVStorage.removeOneExpiredEntry s now).1.map_ = s.map_ ∨
      ∃ k, (KVStorage.removeOneExpiredEntry s now).1.map_ = KVStorage.map_erase s.map_ k) ∧
    s.map_.length ≤ (KVStorage.removeOneExpiredEntry s now).1.map_.length + 1 := by
  have hspec := KVStorage.removeOneExpiredEntry_spec s now
  have hmap : (KVStorage.removeOneExpiredEntry s now).1.map_ = s.map_ ∨
      ∃ k e, KVStorage.map_find s.map_ k = some e ∧
        (KVStorage.removeOneExpiredEntry s now).1.map_ = KVStorage.map_erase s.map_ k := by
    cases hr : (KVStorage.removeOneExpiredEntry s now).2 with
    | none => exact Or.inl (hspec.1 hr).1
    | some kv =>
      obtain ⟨k, v⟩ := kv
      obtain ⟨e, hf, _, _, _, hm, _⟩ := hspec.2 k v hr
      exact Or.inr ⟨k, e, hf, hm⟩
  refine ⟨?_, KVStorage.removeOneExpiredEntry_none_exit s now,
    fun q t ht => KVStorage.heap_pop_length ht, ?_, ?_, ?_⟩
  · exact KVStorage.removeOneExpiredEntry_loop_fuel now fuel s.min_heap_.length s hfuel
      (Nat.le_refl _)
  · obtain ⟨popped, hp, _, _⟩ := KVStorage.removeOneExpiredEntry_popped s now
    refine ⟨popped, hp, ?_⟩
    have := hp.length_eq
    rw [List.length_append] at this
    omega
  · rcases hmap with h | ⟨k, _, _, h⟩
    · exact Or.inl h
    · exact Or.inr ⟨k, h⟩
  · rcases hmap with h | ⟨k, e, hf, h⟩
    · rw [h]
      exact Nat.le_succ _
    · rw [h]
      have := (KVStorage.map_erase_perm hf).length_eq
      rw [List.length_cons] at this
      omega

/-- C18 on the store of the `RemoveAndExpiredPop` test at clock reading `2`, with more fuel
than the queue length `2`. -/
theorem KVStorage.C18_terminates_witness :
    (KVStorage.ctor [("k1", "v1", 1), ("k2", "v2", 1), ("k3", "v3", 0)] 0).min_heap_.length ≤ 5 ∧
    KVStorage.removeOneExpiredEntry_loop 2 5
      (KVStorage.ctor [("k1", "v1", 1), ("k2", "v2", 1), ("k3", "v3", 0)] 0) =
      KVStorage.removeOneExpiredEntry
        (KVStorage.ctor [("k1", "v1", 1), ("k2", "v2", 1), ("k3", "v3", 0)] 0) 2 :=
  ⟨by decide, (KVStorage.C18_terminates _ 2 5 (by decide)).1⟩

/-- C19: in every state reached from a reachable state by `set(k, v, ttl)` with `ttl > 0`
followed by any sequence of operations without a further `set` of `k` (so that a record of
`k`, if there is one, was last set with `ttl > 0`), the record of `k` has an entry in the
expiration queue with its key, generation and expiration; and in every reachable state every
record whose expiration is not the sentinel has such an entry. -/
theorem KVStorage.C19_queue_coverage (s : KVStorage) (k v : String) (T ttl : Nat)
    (ops : List (Nat × KVStorage.Op)) (hr : KVStorage.Reachable s) (httl : 0 < ttl)
    (hops : ∀ p ∈ ops, KVStorage.Op.sets k p.2 = false) :
    (∀ e, KVStorage.map_find (KVStorage.run (KVStorage.set s T k v ttl) ops).map_ k = some e →
      KVStorage.HeapItem.mk e.expired_at e.generation k ∈
        (KVStorage.run (KVStorage.set s T k v ttl) ops).min_heap_) ∧
    (∀ k1 e, KVStorage.map_find (KVStorage.run (KVStorage.set s T k v ttl) ops).map_ k1 = some e →
      e.expired_at ≠ KVStorage.k_infinite →
      KVStorage.HeapItem.mk e.expired_at e.generation k1 ∈
        (KVStorage.run (KVStorage.set s T k v ttl) ops).min_heap_) := by
  have hwf := KVStorage.WF_set T k v ttl (KVStorage.WF_of_reachable hr)
  refine ⟨KVStorage.run_covers ops hwf hops ?_, (KVStorage.WF_run ops hwf).covered⟩
  intro e hf
  have h0 : ¬ ttl = 0 := by omega
  rw [KVStorage.set_record] at hf
  cases hf
  rw [KVStorage.set_min_heap, if_neg h0]
  simp [h0]

/-- C19 on a record whose expiration is the sentinel although it was set with a ttl, after
the `set` of another key and a `removeOneExpiredEntry()` call that pops an older entry. -/
theorem KVStorage.C19_queue_coverage_witness :
    (KVStorage.Reachable (KVStorage.ctor [("k", "u", 1)] 0) ∧ 0 < 1 ∧
      ∀ p ∈ [((2 ^ 64 - 2 : Nat), KVStorage.Op.set "j" "x" 1),
          (2 ^ 64 - 2, KVStorage.Op.removeOneExpiredEntry)],
        KVStorage.Op.sets "k" p.2 = false) ∧
    KVStorage.HeapItem.mk (2 ^ 64 - 1) 2 "k" ∈
      (KVStorage.run (KVStorage.set (KVStorage.ctor [("k", "u", 1)] 0) (2 ^ 64 - 2) "k" "v" 1)
        [(2 ^ 64 - 2, KVStorage.Op.set "j" "x" 1),
         (2 ^ 64 - 2, KVStorage.Op.removeOneExpiredEntry)]).min_heap_ :=
  ⟨⟨KVStorage.Reachable.ctor _ 0, by decide, by decide⟩,
    (KVStorage.C19_queue_coverage (KVStorage.ctor [("k", "u", 1)] 0) "k" "v" (2 ^ 64 - 2) 1
      [(2 ^ 64 - 2, KVStorage.Op.set "j" "x" 1), (2 ^ 64 - 2, KVStorage.Op.removeOneExpiredEntry)]
      (KVStorage.Reachable.ctor _ 0) (by decide) (by decide)).1
      (KVStorage.Entry.mk "v" (2 ^ 64 - 1) 2) (by decide)⟩

/-- C20: for every store state, every pair of distinct keys `k` and `k1`, every value, ttl
and clock reading, the record of `k1` in the primary map, and hence `get(k1)` at any clock
reading, is the same before and after `set(k, v, ttl)` and before and after `remove(k)`. -/
theorem KVStorage.C20_key_isolation (s : KVStorage) (k k1 v : String) (ttl now now1 : Nat)
    (hk : k1 ≠ k) :
    KVStorage.map_find (KVStorage.set s now k v ttl).map_ k1 = KVStorage.map_find s.map_ k1 ∧
    KVStorage.get (KVStorage.set s now k v ttl) now1 k1 = KVStorage.get s now1 k1 ∧
    KVStorage.map_find (KVStorage.remove s k).1.map_ k1 = KVStorage.map_find s.map_ k1 ∧
    KVStorage.get (KVStorage.remove s k).1 now1 k1 = KVStorage.get s now1 k1 :=
  ⟨KVStorage.set_map_find_ne s now k v ttl hk,
    KVStorage.get_congr now1 k1 (KVStorage.set_map_find_ne s now k v ttl hk),
    KVStorage.remove_map_find_ne s k hk,
    KVStorage.get_congr now1 k1 (KVStorage.remove_map_find_ne s k hk)⟩

/-- C20 on the store of the `BasicGetSet` test: `set("a", "11", 0)` leaves `b` as it is. -/
theorem KVStorage.C20_key_isolation_witness :
    "b" ≠ "a" ∧
    KVStorage.get (KVStorage.set (KVStorage.ctor [("a", "1", 0), ("b", "2", 0)] 0) 0 "a" "11" 0)
      0 "b" = KVStorage.get (KVStorage.ctor [("a", "1", 0), ("b", "2", 0)] 0) 0 "b" :=
  ⟨by decide,
    (KVStorage.C20_key_isolation (KVStorage.ctor [("a", "1", 0), ("b", "2", 0)] 0)
      "a" "b" "11" 0 0 0 (by decide)).2.1⟩
